import Mathlib

/-!
Verification of the Debug Session Orchestrator of the `haocheng` repository
(`src/haocheng/__init__.py`), as a shallow embedding in Lean 4.

The adapter (LLDB's DAP server), the filesystem and the wall clock are
external to the program, so they enter the embedding as oracles: a
`FileSystem` record of (pure) query functions, a per-spec breakpoint
registration outcome, a trace of debugger views returned by `launch` /
`continue_execution`, and a per-expression evaluation outcome.  Everything
the Python module itself computes is translated directly from the source.
-/

namespace Haocheng

/-! ## String helpers mirroring the Python primitives used by the module -/

/-- Substring test: models the Python `needle in hay` operator on `str`. -/
def strContainsSub (hay needle : String) : Bool :=
  (List.range (hay.toList.length + 1)).any fun i =>
    needle.toList.isPrefixOf (hay.toList.drop i)

/-- Models Python `str.lower()` (ASCII-level, which is all the module compares). -/
def strLower (s : String) : String :=
  String.mk (s.toList.map Char.toLower)

/-- Splits a list of characters at its LAST colon, mirroring
`str.rsplit(":", 1)`.  `none` models the two-element unpacking failing
(`ValueError`) because the string holds no colon. -/
def rsplitChars : List Char → Option (List Char × List Char)
  | [] => none
  | c :: rest =>
    match rsplitChars rest with
    | some (a, b) => some (c :: a, b)
    | none => if c = ':' then some ([], rest) else none

/-- Models `location.rsplit(":", 1)` followed by two-element unpacking, as in
`BreakpointSpec.file_path` / `BreakpointSpec.line_no` and in
`_normalize_locations`. -/
def pyRsplitColon (s : String) : Option (String × String) :=
  (rsplitChars s.toList).map fun p => (String.mk p.1, String.mk p.2)

/-- Numeric value of a digit list. -/
def digitsVal (l : List Char) : Nat :=
  l.foldl (fun acc c => acc * 10 + (c.toNat - 48)) 0

/-- Models Python `int(s)` on a decimal string: optional sign followed by at
least one digit succeeds, everything else raises `ValueError` (modelled as
`none`).  (Python also strips whitespace and allows `_` separators; those
inputs do not occur in this development.) -/
def pyInt? (s : String) : Option Int :=
  match s.toList with
  | [] => none
  | '-' :: rest =>
    if rest.isEmpty then none
    else if rest.all Char.isDigit then some (-(digitsVal rest : Int)) else none
  | '+' :: rest =>
    if rest.isEmpty then none
    else if rest.all Char.isDigit then some ((digitsVal rest : Int)) else none
  | l => if l.all Char.isDigit then some ((digitsVal l : Int)) else none

/-! ## Data model (the Pydantic models of the module) -/

/-- Model of `BreakpointSpec` of the source: a user-declared breakpoint. -/
structure BreakpointSpec where
  location : String
  hit_limit : Int := 10
  inline_expr : List String := []
  print_call_stack : Bool := false
  deriving DecidableEq, Repr

/-- Model of `InlineExprValue` of the source. -/
structure InlineExprValue where
  name : String
  value : String
  deriving DecidableEq, Repr

/-- Model of `BreakpointHitInfo` of the source. -/
structure BreakpointHitInfo where
  callstack : String
  inline_expr : List InlineExprValue
  deriving DecidableEq, Repr

/-- Model of `BreakpointReport` of the source. -/
structure BreakpointReport where
  id : Int
  file_path : String
  line : Int
  function_name : String
  hit_times : Int
  hits_info : List BreakpointHitInfo
  deriving DecidableEq, Repr

/-- Model of `RuntimeFeedback` of the source (the internal result of `_run_dap`).
`reports` is a Python `dict[int, BreakpointReport]`; an insertion-ordered
association list is its faithful functional image.  `stdout` / `stderr` are
byte strings. -/
structure RuntimeFeedback where
  stdout : List Nat
  stderr : List Nat
  reports : List (Int × BreakpointReport)
  timeout : Bool
  exit_code : Option Int
  signal : Option String
  deriving DecidableEq, Repr

/-! ## Association lists: the image of Python `dict[int, -]`

`alistSet` replaces in place when the key exists (as a dict assignment
does, preserving insertion order) and appends otherwise. -/

def alistGet {α : Type} : List (Int × α) → Int → Option α
  | [], _ => none
  | (k, v) :: rest, key => if k = key then some v else alistGet rest key

def alistSet {α : Type} : List (Int × α) → Int → α → List (Int × α)
  | [], key, v => [(key, v)]
  | (k, w) :: rest, key, v =>
    if k = key then (k, v) :: rest else (k, w) :: alistSet rest key v

/-! ## Location normalization (`_normalize_locations`)

The filesystem and `pathlib` are outside the program; they appear as an
oracle of pure query functions.  `pathStr` models `str(Path(p))` (pathlib's
re-rendering of a path string) and `resolve` models
`str(Path(p).resolve())`. -/

structure FileSystem where
  pathExists : String → Bool
  resolve : String → String
  pathStr : String → String

/-- POSIX `Path.is_absolute()`. -/
def isAbsolute (p : String) : Bool :=
  match p.toList with
  | '/' :: _ => true
  | _ => false

/-- Model of the `pathlib` slash operator: an absolute right operand replaces the left. -/
def joinPath (a b : String) : String :=
  if isAbsolute b then b else a ++ "/" ++ b

/-- Splitting a character list on `/`. -/
def slashComponents : List Char → List (List Char)
  | [] => [[]]
  | c :: rest =>
    match slashComponents rest with
    | [] => [[]]
    | a :: as => if c = '/' then [] :: a :: as else (c :: a) :: as

/-- Model of `Path(p).name` of `pathlib`: the final non-empty path component. -/
def basename (p : String) : String :=
  String.mk ((((slashComponents p.toList).filter (fun c => c ≠ [])).getLast?).getD [])

/-- The source-map fallback of `_normalize_locations` (its final `if`):
the first source-map entry whose basename equals the spec's basename wins;
with no match the original location is kept unchanged. -/
def resolveViaSourceMap (sourceMap : List String)
    (fileStr linePart original : String) : String :=
  match sourceMap.filter (fun p => basename p == basename fileStr) with
  | [] => original
  | p :: _ => p ++ ":" ++ linePart

/-- The per-spec location resolution of `_normalize_locations`
(src/haocheng/__init__.py lines 129-144), after the `rsplit` into
`fileStr`/`linePart` has succeeded.  `original` is the spec's untouched
`location` string. -/
def resolveLocation (fs : FileSystem) (repoDir : Option String)
    (sourceMap : List String) (fileStr linePart original : String) : String :=
  if isAbsolute fileStr && fs.pathExists fileStr then
    fs.pathStr fileStr ++ ":" ++ linePart
  else
    match repoDir with
    | some repo =>
      let guess := fs.resolve (joinPath repo fileStr)
      if fs.pathExists guess then guess ++ ":" ++ linePart
      else resolveViaSourceMap sourceMap fileStr linePart original
    | none => resolveViaSourceMap sourceMap fileStr linePart original

/-- Model of `_normalize_locations` over the whole spec list.  A location without a
colon makes the two-element unpacking of `rsplit` raise `ValueError`; the
function body contains no handler, so the exception escapes: modelled as
`Except.error`. -/
def normalizeLocations (fs : FileSystem) (repoDir : Option String)
    (sourceMap : List String) : List BreakpointSpec → Except String (List BreakpointSpec)
  | [] => .ok []
  | spec :: rest =>
    match pyRsplitColon spec.location with
    | none => .error "ValueError: not enough values to unpack (expected 2, got 1)"
    | some (fileStr, linePart) =>
      match normalizeLocations fs repoDir sourceMap rest with
      | .error e => .error e
      | .ok rest2 =>
        .ok ({ spec with
               location := resolveLocation fs repoDir sourceMap fileStr linePart spec.location }
             :: rest2)

/-! A second resolution definition, written from the specification's words
("first match wins" over three rules), to be compared with the one
translated from the source. -/

/-- Spec rule 1: "if the file part is an absolute path that exists, it is used". -/
def specRuleAbsolute (fs : FileSystem) (fileStr linePart : String) : Option String :=
  if isAbsolute fileStr && fs.pathExists fileStr then
    some (fs.pathStr fileStr ++ ":" ++ linePart)
  else none

/-- Spec rule 2: "else if a repo root is configured and repo_root/file
exists, its resolved absolute form is used". -/
def specRuleRepo (fs : FileSystem) (repoDir : Option String)
    (fileStr linePart : String) : Option String :=
  match repoDir with
  | none => none
  | some repo =>
    if fs.pathExists (fs.resolve (joinPath repo fileStr)) then
      some (fs.resolve (joinPath repo fileStr) ++ ":" ++ linePart)
    else none

/-- Spec rule 3: "else if a source map is provided, pick the first entry
whose basename equals the spec's basename". -/
def specRuleMap (sourceMap : List String) (fileStr linePart : String) : Option String :=
  match sourceMap.filter (fun p => basename p == basename fileStr) with
  | [] => none
  | p :: _ => some (p ++ ":" ++ linePart)

/-- Resolution as the specification words it: the first matching rule in
order; if no rule matches the location is left unchanged. -/
def specResolveLocation (fs : FileSystem) (repoDir : Option String)
    (sourceMap : List String) (fileStr linePart original : String) : String :=
  match specRuleAbsolute fs fileStr linePart with
  | some r => r
  | none =>
    match specRuleRepo fs repoDir fileStr linePart with
    | some r => r
    | none =>
      match specRuleMap sourceMap fileStr linePart with
      | some r => r
      | none => original

/-! ## Backtrace formatter (`_format_single_frame`, `_compact_backtrace`) -/

/-- A DAP `Source` as the module touches it: `name` and `path`, both
optional in the protocol. -/
structure FrameSource where
  name : Option String
  path : Option String
  deriving DecidableEq, Repr

/-- A DAP `StackFrame` as the module touches it. -/
structure StackFrame where
  name : String
  line : Int
  source : Option FrameSource
  deriving DecidableEq, Repr

/-- Python's `str(x)` for an optional string inside an f-string: `None`
renders as the text `"None"`. -/
def pyStrOpt : Option String → String
  | some s => s
  | none => "None"

/-- Model of `_format_single_frame` of the source. -/
def formatSingleFrame (f : StackFrame) : String :=
  match f.source with
  | some src => f.name ++ " at " ++ pyStrOpt src.name ++ ":" ++ toString f.line
  | none => f.name

/-- Model of `_compact_backtrace` of the source. -/
def compactBacktrace (frames : List StackFrame) : String :=
  String.intercalate "\n"
    (frames.enum.map fun p =>
      (if p.1 = 0 then "*" else " ") ++ " #" ++ toString p.1 ++ ": " ++ formatSingleFrame p.2)

/-- One backtrace line as §4.2 of the specification words it: `* #0: ...`
for the innermost frame, `  #i: ...` for the others, `<name> at
<basename>:<line>` when the frame has a source and just `<name>` otherwise. -/
def specBacktraceLine (i : Nat) (f : StackFrame) : String :=
  (if i = 0 then "* #" else "  #") ++ toString i ++ ": " ++
    (match f.source with
     | some src => f.name ++ " at " ++ pyStrOpt src.name ++ ":" ++ toString f.line
     | none => f.name)

/-- The whole backtrace as the specification words it: one line per frame,
joined by newlines. -/
def specBacktrace (frames : List StackFrame) : String :=
  String.intercalate "\n" (frames.enum.map fun p => specBacktraceLine p.1 p.2)

/-! ## Expression evaluator wrapper (`_run_dap`, lines 413-496)

`dbg.evaluate(var)` is an adapter round trip; its outcome is an oracle
value.  The module distinguishes an `ErrorResponse`, a typed response
(whose `success`/`body`/`result`/`error` fields it probes), and a raised
transport exception. -/

/-- Detail record of an evaluate error body (`body.error` with `format`
and `message` fields, each possibly absent). -/
structure EvalErrorDetail where
  format : Option String
  message : Option String
  deriving DecidableEq, Repr

/-- Body of a (non-`ErrorResponse`) evaluate response as the module probes
it. -/
structure EvalBody where
  result : Option String
  error : Option EvalErrorDetail
  deriving DecidableEq, Repr

/-- Outcome of one `dbg.evaluate` call, as seen by the module. -/
inductive EvalOutcome where
  /-- The call raised (transport failure etc.). -/
  | raised
  /-- The adapter returned an `ErrorResponse`; `message` is its optional text. -/
  | errorResponse (message : Option String)
  /-- The adapter returned an evaluate response. -/
  | response (success : Bool) (body : Option EvalBody)
  deriving Repr

/-- The error-text simplification of the source (lines 419-430 and the
identical chain at lines 459-482): the first three triggers are matched
case-SENSITIVELY, the last two against `error_msg.lower()`. -/
def simplifyErrorText (var msg : String) : String :=
  if strContainsSub msg "use of undeclared identifier" then
    "<use of undeclared identifier \x27" ++ var ++ "\x27>"
  else if strContainsSub msg "no member named" then
    "<no member named in " ++ var ++ ">"
  else if strContainsSub msg "cannot be used" then
    "<" ++ var ++ " cannot be used>"
  else if strContainsSub (strLower msg) "not found" then
    "<" ++ var ++ " not found>"
  else if strContainsSub (strLower msg) "undefined" then
    "<" ++ var ++ " undefined>"
  else
    "<evaluation error for " ++ var ++ ">"

/-- The value string the module records for one expression `var` given the
evaluate outcome (lines 414-490).  `ev.message or ""` maps an absent
`ErrorResponse.message` to the empty string. -/
def evalValue (var : String) (out : EvalOutcome) : String :=
  match out with
  | .raised => "<runtime_value_unavailable>"
  | .errorResponse msg => simplifyErrorText var (msg.getD "")
  | .response success body =>
    if success then
      match body with
      | some b =>
        match b.result with
        | some r => r
        | none => "<no_result>"
      | none => "<evaluation_failed>"
    else
      match body with
      | some b =>
        match b.error with
        | some e =>
          match e.format with
          | some f => simplifyErrorText var f
          | none =>
            match e.message with
            | some m => "<" ++ m ++ ">"
            | none => "<error_no_details>"
        | none => "<evaluation_failed>"
      | none => "<evaluation_failed>"

/-- The §4.3 classification table as the specification words it: every
trigger matched as a case-insensitive substring of the error message, in
table order, with the generic tag as fallback. -/
def specClassifyError (var msg : String) : String :=
  if strContainsSub (strLower msg) "use of undeclared identifier" then
    "<use of undeclared identifier \x27" ++ var ++ "\x27>"
  else if strContainsSub (strLower msg) "no member named" then
    "<no member named in " ++ var ++ ">"
  else if strContainsSub (strLower msg) "cannot be used" then
    "<" ++ var ++ " cannot be used>"
  else if strContainsSub (strLower msg) "not found" then
    "<" ++ var ++ " not found>"
  else if strContainsSub (strLower msg) "undefined" then
    "<" ++ var ++ " undefined>"
  else
    "<evaluation error for " ++ var ++ ">"

/-- The amended classification: triggers `use of undeclared identifier`,
`no member named` and `cannot be used` matched case-sensitively, `not
found` and `undefined` case-insensitively, in table order, generic tag as
fallback. -/
def amendedClassifyError (var msg : String) : String :=
  if strContainsSub msg "use of undeclared identifier" then
    "<use of undeclared identifier \x27" ++ var ++ "\x27>"
  else if strContainsSub msg "no member named" then
    "<no member named in " ++ var ++ ">"
  else if strContainsSub msg "cannot be used" then
    "<" ++ var ++ " cannot be used>"
  else if strContainsSub (strLower msg) "not found" then
    "<" ++ var ++ " not found>"
  else if strContainsSub (strLower msg) "undefined" then
    "<" ++ var ++ " undefined>"
  else
    "<evaluation error for " ++ var ++ ">"

/-! ## DAP events and debugger views -/

/-- The `hitBreakpointIds` attribute of a `StoppedEvent` body: possibly
absent (`hasattr` fails), possibly `None`, possibly a list of ids. -/
inductive HitIdsAttr where
  | missing
  | noneAttr
  | ids (l : List Int)
  deriving DecidableEq, Repr

/-- Body of a DAP `StoppedEvent` as the module touches it. -/
structure StoppedBody where
  reason : String
  description : Option String
  hitIds : HitIdsAttr
  deriving DecidableEq, Repr

/-- A DAP event as the module dispatches on it (`StoppedEvent`,
`ExitedEvent`, anything else). -/
inductive DapEvent where
  | stopped (body : StoppedBody)
  | exited (exitCode : Int)
  | other
  deriving DecidableEq, Repr

/-- A `StoppedDebuggerView`: the stopped thread's frames, the events that
caused the stop, and the oracle answering `dbg.evaluate` calls made while
stopped here. -/
structure StoppedView where
  frames : List StackFrame
  events : List DapEvent
  evalOracle : String → EvalOutcome

/-- A view returned by `dbg.launch()` / `dbg.continue_execution()`: either
a `StoppedDebuggerView` or an `EventListView` (the debuggee terminated). -/
inductive View where
  | stoppedV (v : StoppedView)
  | eventsV (events : List DapEvent)

/-- All `StoppedEvent` bodies among a view's events. -/
def stoppedBodies (es : List DapEvent) : List StoppedBody :=
  es.filterMap fun e =>
    match e with
    | .stopped b => some b
    | _ => none

/-- The `StoppedEvent` bodies whose reason is `"breakpoint"` (line 308-312). -/
def breakpointBodies (es : List DapEvent) : List StoppedBody :=
  (stoppedBodies es).filter fun b => b.reason == "breakpoint"

/-! ## Timeout gate (`_with_timeout`, lines 279-286)

The monotonic clock is external: `elapsed` is `time.monotonic() - start_ts`
sampled when the wrapper runs, and `timerWins` tells whether the
`asyncio.wait_for` race would end with the timer rather than the
operation.  `Except.error ()` models the raised `asyncio.TimeoutError`. -/

def withTimeout {α : Type} (budget : Option Rat) (elapsed : Rat)
    (timerWins : Bool) (v : α) : Except Unit α :=
  match budget with
  | none => Except.ok v
  | some b =>
    if b - elapsed ≤ 0 then Except.error ()
    else if timerWins then Except.error () else Except.ok v

/-- One suspension of the stop loop: the clock sample and race outcome for
the `_with_timeout` wrapper, and the view the adapter returns if the
operation wins. -/
structure StepInput where
  elapsed : Rat
  timerWins : Bool
  view : View

/-! ## Loop state of `_run_dap` -/

/-- An adapter request the loop emits (recorded for observability of the
conversation; responses to `remove_breakpoint` only drive warnings). -/
inductive Request where
  | continueExec
  | removeBp (location : String)
  deriving DecidableEq, Repr

/-- The mutable state of `_run_dap`'s stop loop: the evolving reports
dict and the result fields the loop writes. -/
structure LoopState where
  reports : List (Int × BreakpointReport)
  signal : Option String
  timeout : Bool
  exitCode : Option Int
  requests : List Request
  deriving DecidableEq, Repr

/-- Outcome of the stop loop: `finished` carries the state and the final
value of `stopped` (used afterwards for the `ExitedEvent` scan);
`incomplete` means the loop made no further progress within the supplied
fuel or trace — in particular the genuine non-termination of the
`hitBreakpointIds is None` spin. -/
inductive LoopOutcome where
  | finished (s : LoopState) (finalStopped : Option View)
  | incomplete (s : LoopState)

/-- State component of a loop outcome. -/
def outState : LoopOutcome → LoopState
  | .finished s _ => s
  | .incomplete s => s

/-- The `BreakpointHitInfo` built at one hit (lines 409-496): the
backtrace string only when the spec asks for it, and one `(name, value)`
entry per declared expression, in declared order, whatever each
evaluation's outcome. -/
def hitInfoFor (v : StoppedView) (spec : BreakpointSpec) (bt : String) : BreakpointHitInfo :=
  { callstack := if spec.print_call_stack then bt else ""
    inline_expr := spec.inline_expr.map fun var =>
      { name := var, value := evalValue var (v.evalOracle var) } }

/-- The report mutations of one hit (lines 387-388, 406-408, 497), as
their net effect on the record: bump `hit_times` and set `function_name`;
rewrite `file_path` from the top frame's source path — the Python
truthiness test `if top.source and top.source.path` keeps the old path
when the source or its path is absent or the path is the empty string;
set `line` from the top frame; append the hit info. -/
def hitUpdatedReport (report : BreakpointReport) (top : StackFrame)
    (fname : String) (hi : BreakpointHitInfo) : BreakpointReport :=
  { id := report.id
    file_path :=
      match top.source with
      | some src =>
        match src.path with
        | some p => if p = "" then report.file_path else p
        | none => report.file_path
      | none => report.file_path
    line := top.line
    function_name := fname
    hit_times := report.hit_times + 1
    hits_info := report.hits_info ++ [hi] }

def processHit (specs : List (Int × BreakpointSpec)) (v : StoppedView)
    (top : StackFrame) (bt : String) (fname : String)
    (st : LoopState) (bpId : Int) : LoopState :=
  match alistGet specs bpId with
  | none => st
  | some spec =>
    match alistGet st.reports bpId with
    | none => st
    | some report =>
      let st1 :=
        if report.hit_times + 1 ≥ spec.hit_limit then
          { st with requests := st.requests ++ [Request.removeBp spec.location] }
        else st
      { st1 with
        reports := alistSet st.reports bpId
          (hitUpdatedReport report top fname (hitInfoFor v spec bt)) }

/-- The `for breakpoint_id in breakpoint_ids` loop over one stop. -/
def processHits (specs : List (Int × BreakpointSpec)) (v : StoppedView)
    (s : LoopState) (ids : List Int) : LoopState :=
  match v.frames with
  | [] => s
  | top :: _ =>
    ids.foldl (processHit specs v top (compactBacktrace v.frames) top.name) s

/-- Classification of one `StoppedDebuggerView` by the stop loop, in
source order: empty frames, then the `breakpoint`-reason events, then the
single-stopped-event / exception analysis, then the `hitBreakpointIds`
probing. -/
inductive StopAction where
  /-- Case `breakpoint_ids is None`: `continue` back to the loop head with the
  same view and no adapter request (line 365-366). -/
  | spin
  /-- A single breakpoint stop with an id list: record hits, then continue. -/
  | record (ids : List Int)
  /-- A single non-breakpoint stop with reason `"exception"`: record the
  description as the signal and break (lines 329-340). -/
  | declareSignal (d : Option String)
  /-- Every warned-and-continue path, and the empty-frames path. -/
  | justContinue
  deriving Repr

def classifyStop (v : StoppedView) : StopAction :=
  match v.frames with
  | [] => .justContinue
  | _ :: _ =>
    match breakpointBodies v.events with
    | [] =>
      match stoppedBodies v.events with
      | [b] => if b.reason = "exception" then .declareSignal b.description else .justContinue
      | _ => .justContinue
    | [b] =>
      match b.hitIds with
      | .missing => .justContinue
      | .noneAttr => .spin
      | .ids l => .record l
    | _ => .justContinue

/-- One `continue_execution` round trip wrapped in `_with_timeout`:
`error` carries the state after the `asyncio.TimeoutError` handler ran
(`result.timeout = True`), `ok` the state and the next view. -/
def contResult (budget : Option Rat) (s : LoopState) (si : StepInput) :
    Except LoopState (LoopState × View) :=
  let s1 := { s with requests := s.requests ++ [Request.continueExec] }
  match withTimeout budget si.elapsed si.timerWins si.view with
  | .error _ => .error { s1 with timeout := true }
  | .ok nv => .ok (s1, nv)

/-- The `while True` stop loop of `_run_dap` (lines 293-505).  `stopped`
is the Python variable of that name (`none` models Python `None` after a
launch timeout).  `conts` is the trace of `continue_execution` outcomes;
`fuel` bounds the iteration count, and `incomplete` is returned when it —
or the trace — runs out. -/
def runLoop (budget : Option Rat) (specs : List (Int × BreakpointSpec)) :
    Nat → LoopState → Option View → List StepInput → LoopOutcome
  | 0, s, _, _ => .incomplete s
  | _ + 1, s, none, _ => .finished s none
  | _ + 1, s, some (View.eventsV evs), _ => .finished s (some (View.eventsV evs))
  | fuel + 1, s, some (View.stoppedV v), conts =>
    match classifyStop v with
    | .declareSignal d => .finished { s with signal := d } (some (View.stoppedV v))
    | .spin => runLoop budget specs fuel s (some (View.stoppedV v)) conts
    | .justContinue =>
      match conts with
      | [] => .incomplete s
      | si :: rest =>
        match contResult budget s si with
        | .error sT => .finished sT (some (View.stoppedV v))
        | .ok (s2, nv) => runLoop budget specs fuel s2 (some nv) rest
    | .record ids =>
      match conts with
      | [] => .incomplete (processHits specs v s ids)
      | si :: rest =>
        match contResult budget (processHits specs v s ids) si with
        | .error sT => .finished sT (some (View.stoppedV v))
        | .ok (s2, nv) => runLoop budget specs fuel s2 (some nv) rest

/-! ## Breakpoint registration (`_run_dap`, lines 233-274) -/

/-- Outcome of one `dbg.set_breakpoint` round trip as the module
dispatches on it.  `bpIds` are the `id` fields of `resp.body.breakpoints`
(each possibly `None`); the module takes the last entry. -/
inductive SetBpResult where
  | errorResponse (message : String)
  | unexpectedType
  | raised
  | response (success : Bool) (bpIds : List (Option Int))
  deriving DecidableEq, Repr

/-- The adapter id a `set_breakpoint` response yields, if any (lines
236-258): an `ErrorResponse`, a wrong response type, a raised exception,
`success == False`, an empty `body.breakpoints`, or a last breakpoint with
`id is None` all just produce a warning and no id; otherwise the LAST
entry's id is authoritative. -/
def regOutcomeId (outcome : SetBpResult) : Option Int :=
  match outcome with
  | .errorResponse _ => none
  | .unexpectedType => none
  | .raised => none
  | .response success bpIds =>
    if success then
      match bpIds.getLast? with
      | some (some bpId) => some bpId
      | some none => none
      | none => none
    else none

/-- Registration of one spec.  The whole body sits in a `try/except
Exception` that logs and skips, so the `ValueError` from the
`file_path`/`line_no` properties (bad colon split or non-integer line) is
caught here, unlike in `_normalize_locations`.  On success both the
`id_to_spec` and `result.reports` dicts gain the adapter id. -/
def registerOne (acc : List (Int × BreakpointSpec) × List (Int × BreakpointReport))
    (spec : BreakpointSpec) (outcome : SetBpResult) :
    List (Int × BreakpointSpec) × List (Int × BreakpointReport) :=
  match pyRsplitColon spec.location with
  | none => acc
  | some (fp, lnStr) =>
    match pyInt? lnStr with
    | none => acc
    | some ln =>
      match regOutcomeId outcome with
      | none => acc
      | some bpId =>
        (alistSet acc.1 bpId spec,
         alistSet acc.2 bpId
           { id := bpId, file_path := fp, line := ln, function_name := ""
             hit_times := 0, hits_info := [] })

/-- The registration loop over all (normalized) specs; `oracle i` is the
adapter's response to the i-th `set_breakpoint`. -/
def registerSpecs (specs : List BreakpointSpec) (oracle : Nat → SetBpResult) :
    List (Int × BreakpointSpec) × List (Int × BreakpointReport) :=
  specs.enum.foldl (fun acc p => registerOne acc p.2 (oracle p.1)) ([], [])

/-! ## `_run_dap` end to end -/

/-- All the oracle inputs of one `_run_dap` call: the caller's spec list,
the environment `_normalize_locations` consults, the adapter's
registration answers, the launch round trip and the `continue_execution`
trace, and the bytes later read back from the redirected stdio files. -/
structure RunInput where
  breakpoints : List BreakpointSpec
  repoDir : Option String
  sourceMap : List String
  fs : FileSystem
  regOracle : Nat → SetBpResult
  launch : StepInput
  conts : List StepInput
  stdoutBytes : List Nat
  stderrBytes : List Nat

/-- Result of a `_run_dap` call as observed by its caller: a raised
exception, a hang (the loop never finishes), or a `RuntimeFeedback`. -/
inductive RunOutcome where
  | raised (msg : String)
  | hangs
  | ok (r : RuntimeFeedback)
  deriving DecidableEq, Repr

/-- The specs map (`id_to_spec`) a run builds, exposed for stating
properties; empty when normalization raises. -/
def specMapOf (inp : RunInput) : List (Int × BreakpointSpec) :=
  match normalizeLocations inp.fs inp.repoDir inp.sourceMap inp.breakpoints with
  | .error _ => []
  | .ok nspecs => (registerSpecs nspecs inp.regOracle).1

/-- The `RuntimeFeedback` as first initialized (lines 170-177), restricted
to the loop-visible fields. -/
def initialState (reports0 : List (Int × BreakpointReport)) : LoopState :=
  { reports := reports0, signal := none, timeout := false
    exitCode := none, requests := [] }

/-- Model of `dbg.launch()` under `_with_timeout` (lines 288-292): a timeout sets
`result.timeout = True` and leaves `stopped = None`. -/
def launchResult (inp : RunInput) (budget : Option Rat) (st0 : LoopState) :
    LoopState × Option View :=
  match withTimeout budget inp.launch.elapsed inp.launch.timerWins inp.launch.view with
  | .error _ => ({ st0 with timeout := true }, none)
  | .ok v => (st0, some v)

/-- The post-loop `ExitedEvent` scan (lines 507-514): only when the final
`stopped` is an `EventListView`, the first `ExitedEvent`'s `exitCode` is
recorded. -/
def applyExitEvents (s : LoopState) (fstop : Option View) : LoopState :=
  match fstop with
  | some (View.eventsV evs) =>
    match (evs.filterMap fun e =>
            match e with
            | DapEvent.exited c => some c
            | _ => none).head? with
    | some c => { s with exitCode := some c }
    | none => s
  | _ => s

/-- Model of `_run_dap` (lines 160-522): normalize (a failure here escapes to the
caller), register, launch under the timeout gate, run the stop loop, scan
the terminal `EventListView` for an `ExitedEvent`, and read back stdio.
A fuel of `conts.length + 1` is exact: every loop iteration except the
`hitBreakpointIds is None` spin either finishes or consumes one
`continue_execution`, and the spin never terminates. -/
def runDap (inp : RunInput) (timeoutSec : Option Rat) : RunOutcome :=
  match normalizeLocations inp.fs inp.repoDir inp.sourceMap inp.breakpoints with
  | .error e => .raised e
  | .ok nspecs =>
    match runLoop timeoutSec (registerSpecs nspecs inp.regOracle).1 (inp.conts.length + 1)
        (launchResult inp timeoutSec (initialState (registerSpecs nspecs inp.regOracle).2)).1
        (launchResult inp timeoutSec (initialState (registerSpecs nspecs inp.regOracle).2)).2
        inp.conts with
    | .incomplete _ => .hangs
    | .finished s fstop =>
      .ok { stdout := inp.stdoutBytes, stderr := inp.stderrBytes
            reports := (applyExitEvents s fstop).reports
            timeout := (applyExitEvents s fstop).timeout
            exit_code := (applyExitEvents s fstop).exitCode
            signal := (applyExitEvents s fstop).signal }

/-- The timeout plumbing of `RuntimeDebugger.run` (line 768):
`float(timeout_sec) if timeout_sec else None` — both `None` and the falsy
`0` disable the budget. -/
def runBudget (timeout_sec : Option Int) : Option Rat :=
  match timeout_sec with
  | none => none
  | some n => if n = 0 then none else some (n : Rat)

/-- Model of `RuntimeDebugger.run` down to `_run_dap`, with the session itself
abstracted by `RunInput`. -/
def runTop (inp : RunInput) (timeout_sec : Option Int) : RunOutcome :=
  runDap inp (runBudget timeout_sec)

/-! ## Association-list lemmas -/

theorem alistGet_alistSet_self {α : Type} (l : List (Int × α)) (k : Int) (v : α) :
    alistGet (alistSet l k v) k = some v := by
  induction l with
  | nil => simp [alistSet, alistGet]
  | cons p rest ih =>
    by_cases h : p.1 = k
    · simp [alistSet, alistGet, h]
    · simp only [alistSet, alistGet]
      rw [if_neg h, alistGet, if_neg h]
      exact ih

theorem alistGet_alistSet_ne {α : Type} (l : List (Int × α)) (k k' : Int) (v : α)
    (h : k' ≠ k) : alistGet (alistSet l k v) k' = alistGet l k' := by
  induction l with
  | nil =>
    simp only [alistSet, alistGet]
    rw [if_neg (fun e => h e.symm)]
  | cons p rest ih =>
    rcases p with ⟨a, b⟩
    by_cases hp : a = k
    · simp only [alistSet]
      rw [if_pos hp]
      simp only [alistGet]
      have hak : a ≠ k' := fun e => h (e ▸ hp)
      rw [if_neg hak, if_neg hak]
    · simp only [alistSet]
      rw [if_neg hp]
      simp only [alistGet]
      by_cases hk : a = k'
      · rw [if_pos hk, if_pos hk]
      · rw [if_neg hk, if_neg hk]
        exact ih

theorem alistGet_mem {α : Type} {l : List (Int × α)} {k : Int} {v : α}
    (h : alistGet l k = some v) : (k, v) ∈ l := by
  induction l with
  | nil => simp [alistGet] at h
  | cons p rest ih =>
    rcases p with ⟨a, b⟩
    by_cases hp : a = k
    · simp only [alistGet, if_pos hp] at h
      cases h
      rw [hp]
      exact List.mem_cons_self _ _
    · simp only [alistGet, if_neg hp] at h
      exact List.mem_cons_of_mem _ (ih h)

/-- The keys of an association list are pairwise distinct.  Every list the
module builds starts empty and grows only through `alistSet`, so this
invariant holds throughout. -/
def keysNodup {α : Type} (l : List (Int × α)) : Prop :=
  (l.map Prod.fst).Nodup

theorem mem_keys_alistSet {α : Type} (l : List (Int × α)) (k a : Int) (v : α) :
    a ∈ (alistSet l k v).map Prod.fst ↔ a = k ∨ a ∈ l.map Prod.fst := by
  induction l with
  | nil => simp [alistSet]
  | cons p rest ih =>
    by_cases hp : p.1 = k
    · simp only [alistSet, if_pos hp, List.map_cons, List.mem_cons]
      rw [hp]
      tauto
    · simp only [alistSet, if_neg hp, List.map_cons, List.mem_cons]
      rw [ih]
      tauto

theorem keysNodup_alistSet {α : Type} {l : List (Int × α)} (k : Int) (v : α)
    (h : keysNodup l) : keysNodup (alistSet l k v) := by
  induction l with
  | nil => simp [keysNodup, alistSet]
  | cons p rest ih =>
    simp only [keysNodup, List.map_cons, List.nodup_cons] at h
    by_cases hp : p.1 = k
    · simp only [keysNodup, alistSet, if_pos hp, List.map_cons, List.nodup_cons]
      exact ⟨h.1, h.2⟩
    · simp only [keysNodup, alistSet, if_neg hp, List.map_cons, List.nodup_cons]
      constructor
      · rw [mem_keys_alistSet]
        rintro (e | e)
        · exact hp e
        · exact h.1 e
      · exact ih h.2

theorem mem_alistSet_cases {α : Type} {l : List (Int × α)} {k : Int} {v : α}
    {p : Int × α} (hnd : keysNodup l) (h : p ∈ alistSet l k v) :
    p = (k, v) ∨ (p ∈ l ∧ p.1 ≠ k) := by
  induction l with
  | nil =>
    simp only [alistSet, List.mem_singleton] at h
    exact Or.inl h
  | cons q rest ih =>
    rcases q with ⟨a, b⟩
    simp only [keysNodup, List.map_cons, List.nodup_cons] at hnd
    by_cases hq : a = k
    · simp only [alistSet, if_pos hq, List.mem_cons] at h
      rcases h with h | h
      · left
        rw [h, hq]
      · right
        refine ⟨List.mem_cons_of_mem _ h, ?_⟩
        intro e
        apply hnd.1
        rw [hq, ← e]
        exact List.mem_map_of_mem Prod.fst h
    · simp only [alistSet, if_neg hq, List.mem_cons] at h
      rcases h with h | h
      · right
        constructor
        · rw [h]; exact List.mem_cons_self _ _
        · rw [h]; exact hq
      · rcases ih hnd.2 h with h2 | h2
        · exact Or.inl h2
        · exact Or.inr ⟨List.mem_cons_of_mem _ h2.1, h2.2⟩

theorem mem_alistGet {α : Type} {l : List (Int × α)} {k : Int} {v : α}
    (hnd : keysNodup l) (h : (k, v) ∈ l) : alistGet l k = some v := by
  induction l with
  | nil => simp at h
  | cons q rest ih =>
    simp only [keysNodup, List.map_cons, List.nodup_cons] at hnd
    rcases List.mem_cons.mp h with h | h
    · rw [← h]
      simp [alistGet]
    · have hq : q.1 ≠ k := by
        intro e
        exact hnd.1 (by rw [e]; exact List.mem_map_of_mem Prod.fst h)
      simp only [alistGet, if_neg hq]
      exact ih hnd.2 h

/-! ## The report invariant

`goodReports specs reports` collects what registration establishes and
every loop step preserves: distinct keys; every report's id is a
registered id; `hit_times` equals the length of `hits_info`; and every
recorded hit carries exactly the spec's expression names in order. -/

def goodReports (specs : List (Int × BreakpointSpec))
    (reports : List (Int × BreakpointReport)) : Prop :=
  keysNodup reports ∧
  ∀ p ∈ reports, ∃ spec, alistGet specs p.1 = some spec ∧
    p.2.hit_times = (p.2.hits_info.length : Int) ∧
    ∀ h ∈ p.2.hits_info, h.inline_expr.map InlineExprValue.name = spec.inline_expr

theorem hitUpdatedReport_hit_times (report : BreakpointReport) (top : StackFrame)
    (fname : String) (hi : BreakpointHitInfo) :
    (hitUpdatedReport report top fname hi).hit_times = report.hit_times + 1 := rfl

theorem hitUpdatedReport_hits_info (report : BreakpointReport) (top : StackFrame)
    (fname : String) (hi : BreakpointHitInfo) :
    (hitUpdatedReport report top fname hi).hits_info = report.hits_info ++ [hi] := rfl

theorem hitInfoFor_names (v : StoppedView) (spec : BreakpointSpec) (bt : String) :
    (hitInfoFor v spec bt).inline_expr.map InlineExprValue.name = spec.inline_expr := by
  simp only [hitInfoFor, List.map_map]
  exact List.map_id spec.inline_expr

theorem processHit_reports_eq (specs : List (Int × BreakpointSpec)) (v : StoppedView)
    (top : StackFrame) (bt fname : String) (st : LoopState) (bpId : Int) :
    (processHit specs v top bt fname st bpId).reports =
      match alistGet specs bpId with
      | none => st.reports
      | some spec =>
        match alistGet st.reports bpId with
        | none => st.reports
        | some report =>
          alistSet st.reports bpId
            (hitUpdatedReport report top fname (hitInfoFor v spec bt)) := by
  unfold processHit
  cases alistGet specs bpId with
  | none => rfl
  | some spec =>
    cases alistGet st.reports bpId with
    | none => rfl
    | some report => rfl

theorem processHit_signal (specs : List (Int × BreakpointSpec)) (v : StoppedView)
    (top : StackFrame) (bt fname : String) (st : LoopState) (bpId : Int) :
    (processHit specs v top bt fname st bpId).signal = st.signal ∧
    (processHit specs v top bt fname st bpId).timeout = st.timeout ∧
    (processHit specs v top bt fname st bpId).exitCode = st.exitCode := by
  unfold processHit
  cases alistGet specs bpId with
  | none => exact ⟨rfl, rfl, rfl⟩
  | some spec =>
    cases alistGet st.reports bpId with
    | none => exact ⟨rfl, rfl, rfl⟩
    | some report =>
      by_cases hl : report.hit_times + 1 ≥ spec.hit_limit
      · simp [hl]
      · simp [hl]

theorem processHit_good {specs : List (Int × BreakpointSpec)} {v : StoppedView}
    {top : StackFrame} {bt fname : String} {st : LoopState} {bpId : Int}
    (h : goodReports specs st.reports) :
    goodReports specs (processHit specs v top bt fname st bpId).reports := by
  rw [processHit_reports_eq]
  cases hs : alistGet specs bpId with
  | none => exact h
  | some spec =>
    cases hr : alistGet st.reports bpId with
    | none => exact h
    | some report =>
      constructor
      · exact keysNodup_alistSet _ _ h.1
      · intro p hp
        rcases mem_alistSet_cases h.1 hp with he | ⟨hmem, _⟩
        · obtain ⟨spec0, hs0, hbal, hnames⟩ := h.2 (bpId, report) (alistGet_mem hr)
          have hspec0 : spec0 = spec := by
            rw [hs0] at hs
            exact (Option.some.injEq _ _).mp hs
          subst hspec0
          refine ⟨spec0, ?_, ?_, ?_⟩
          · rw [he]
            exact hs
          · rw [he]
            simp only [hitUpdatedReport_hit_times, hitUpdatedReport_hits_info,
              List.length_append, List.length_singleton]
            simp only at hbal
            push_cast
            omega
          · rw [he]
            simp only [hitUpdatedReport_hits_info]
            intro hh hhmem
            rcases List.mem_append.mp hhmem with hm | hm
            · exact hnames hh hm
            · rw [List.mem_singleton.mp hm]
              exact hitInfoFor_names v spec0 bt
        · exact h.2 p hmem

theorem processHits_good {specs : List (Int × BreakpointSpec)} {v : StoppedView}
    {s : LoopState} {ids : List Int} (h : goodReports specs s.reports) :
    goodReports specs (processHits specs v s ids).reports := by
  unfold processHits
  cases v.frames with
  | nil => exact h
  | cons top rest =>
    induction ids generalizing s with
    | nil => exact h
    | cons i more ih =>
      simp only [List.foldl_cons]
      exact ih (processHit_good h)

theorem foldl_processHit_signal (specs : List (Int × BreakpointSpec)) (v : StoppedView)
    (top : StackFrame) (bt fname : String) :
    ∀ (ids : List Int) (s : LoopState),
    ((ids.foldl (processHit specs v top bt fname) s).signal = s.signal ∧
     (ids.foldl (processHit specs v top bt fname) s).timeout = s.timeout ∧
     (ids.foldl (processHit specs v top bt fname) s).exitCode = s.exitCode) := by
  intro ids
  induction ids with
  | nil => exact fun s => ⟨rfl, rfl, rfl⟩
  | cons i more ih =>
    intro s
    simp only [List.foldl_cons]
    obtain ⟨h1, h2, h3⟩ := ih (processHit specs v top bt fname s i)
    obtain ⟨g1, g2, g3⟩ := processHit_signal specs v top bt fname s i
    exact ⟨h1.trans g1, h2.trans g2, h3.trans g3⟩

theorem processHits_signal (specs : List (Int × BreakpointSpec)) (v : StoppedView)
    (s : LoopState) (ids : List Int) :
    (processHits specs v s ids).signal = s.signal ∧
    (processHits specs v s ids).timeout = s.timeout ∧
    (processHits specs v s ids).exitCode = s.exitCode := by
  unfold processHits
  cases v.frames with
  | nil => exact ⟨rfl, rfl, rfl⟩
  | cons top rest =>
    exact foldl_processHit_signal specs v top (compactBacktrace (top :: rest)) top.name ids s

/-- Lemma: `withTimeout` either raises or returns exactly its operand. -/
theorem withTimeout_cases {α : Type} (budget : Option Rat) (e : Rat) (t : Bool) (v : α) :
    withTimeout budget e t v = .error () ∨ withTimeout budget e t v = .ok v := by
  cases budget with
  | none => exact Or.inr rfl
  | some b =>
    by_cases h1 : b - e ≤ 0
    · left
      simp [withTimeout, h1]
    · cases t with
      | true =>
        left
        simp [withTimeout, h1]
      | false =>
        right
        simp [withTimeout, h1]

/-- One workhorse case analysis for a `continue_execution` round trip. -/
theorem contResult_cases (budget : Option Rat) (s : LoopState) (si : StepInput) :
    (∃ sT, contResult budget s si = .error sT ∧ sT.reports = s.reports ∧
       sT.signal = s.signal ∧ sT.exitCode = s.exitCode ∧ sT.timeout = true) ∨
    (∃ s2, contResult budget s si = .ok (s2, si.view) ∧ s2.reports = s.reports ∧
       s2.signal = s.signal ∧ s2.exitCode = s.exitCode ∧ s2.timeout = s.timeout) := by
  unfold contResult
  rcases withTimeout_cases budget si.elapsed si.timerWins si.view with h | h
  · rw [h]
    left
    exact ⟨_, rfl, rfl, rfl, rfl, rfl⟩
  · rw [h]
    right
    exact ⟨_, rfl, rfl, rfl, rfl, rfl⟩

/-! ## Loop-wide preservation lemmas -/

theorem runLoop_good (budget : Option Rat) (specs : List (Int × BreakpointSpec)) :
    ∀ (fuel : Nat) (s : LoopState) (stopped : Option View) (conts : List StepInput),
    goodReports specs s.reports →
    goodReports specs (outState (runLoop budget specs fuel s stopped conts)).reports := by
  intro fuel
  induction fuel with
  | zero =>
    intro s stopped conts h
    exact h
  | succ n ih =>
    intro s stopped conts h
    cases stopped with
    | none => exact h
    | some view =>
      cases view with
      | eventsV evs => exact h
      | stoppedV v =>
        simp only [runLoop]
        cases hc : classifyStop v with
        | declareSignal d => exact h
        | spin => exact ih s (some (View.stoppedV v)) conts h
        | justContinue =>
          dsimp only
          cases conts with
          | nil => exact h
          | cons si rest =>
            dsimp only
            rcases contResult_cases budget s si with
              ⟨sT, hEq, hrep, _, _, _⟩ | ⟨s2, hEq, hrep, _, _, _⟩
            · rw [hEq]
              show goodReports specs sT.reports
              rw [hrep]
              exact h
            · rw [hEq]
              exact ih s2 (some si.view) rest (by rw [hrep]; exact h)
        | record ids =>
          dsimp only
          cases conts with
          | nil => exact processHits_good h
          | cons si rest =>
            dsimp only
            rcases contResult_cases budget (processHits specs v s ids) si with
              ⟨sT, hEq, hrep, _, _, _⟩ | ⟨s2, hEq, hrep, _, _, _⟩
            · rw [hEq]
              show goodReports specs sT.reports
              rw [hrep]
              exact processHits_good h
            · rw [hEq]
              refine ih s2 (some si.view) rest ?_
              rw [hrep]
              exact processHits_good h

theorem runLoop_exitCode (budget : Option Rat) (specs : List (Int × BreakpointSpec)) :
    ∀ (fuel : Nat) (s : LoopState) (stopped : Option View) (conts : List StepInput),
    (outState (runLoop budget specs fuel s stopped conts)).exitCode = s.exitCode := by
  intro fuel
  induction fuel with
  | zero => intro s stopped conts; rfl
  | succ n ih =>
    intro s stopped conts
    cases stopped with
    | none => rfl
    | some view =>
      cases view with
      | eventsV evs => rfl
      | stoppedV v =>
        simp only [runLoop]
        cases hc : classifyStop v with
        | declareSignal d => rfl
        | spin => exact ih s (some (View.stoppedV v)) conts
        | justContinue =>
          dsimp only
          cases conts with
          | nil => rfl
          | cons si rest =>
            dsimp only
            rcases contResult_cases budget s si with
              ⟨sT, hEq, _, _, hex, _⟩ | ⟨s2, hEq, _, _, hex, _⟩
            · rw [hEq]
              exact hex
            · rw [hEq]
              exact (ih s2 (some si.view) rest).trans hex
        | record ids =>
          have hp := (processHits_signal specs v s ids).2.2
          dsimp only
          cases conts with
          | nil => exact hp
          | cons si rest =>
            dsimp only
            rcases contResult_cases budget (processHits specs v s ids) si with
              ⟨sT, hEq, _, _, hex, _⟩ | ⟨s2, hEq, _, _, hex, _⟩
            · rw [hEq]
              exact hex.trans hp
            · rw [hEq]
              exact (ih s2 (some si.view) rest).trans (hex.trans hp)

theorem runLoop_timeout_none (specs : List (Int × BreakpointSpec)) :
    ∀ (fuel : Nat) (s : LoopState) (stopped : Option View) (conts : List StepInput),
    (outState (runLoop none specs fuel s stopped conts)).timeout = s.timeout := by
  intro fuel
  induction fuel with
  | zero => intro s stopped conts; rfl
  | succ n ih =>
    intro s stopped conts
    cases stopped with
    | none => rfl
    | some view =>
      cases view with
      | eventsV evs => rfl
      | stoppedV v =>
        simp only [runLoop]
        cases hc : classifyStop v with
        | declareSignal d => rfl
        | spin => exact ih s (some (View.stoppedV v)) conts
        | justContinue =>
          dsimp only
          cases conts with
          | nil => rfl
          | cons si rest =>
            dsimp only
            have hok : contResult none s si =
                .ok ({ s with requests := s.requests ++ [Request.continueExec] }, si.view) := rfl
            rw [hok]
            exact ih _ (some si.view) rest
        | record ids =>
          have hp := (processHits_signal specs v s ids).2.1
          dsimp only
          cases conts with
          | nil => exact hp
          | cons si rest =>
            dsimp only
            have hok : contResult none (processHits specs v s ids) si =
                .ok ({ processHits specs v s ids with
                        requests := (processHits specs v s ids).requests ++ [Request.continueExec] },
                     si.view) := rfl
            rw [hok]
            exact (ih _ (some si.view) rest).trans hp

theorem runLoop_signal_finished (budget : Option Rat) (specs : List (Int × BreakpointSpec)) :
    ∀ (fuel : Nat) (s : LoopState) (stopped : Option View) (conts : List StepInput)
      (s2 : LoopState) (fstop : Option View),
    runLoop budget specs fuel s stopped conts = .finished s2 fstop →
    s2.signal = s.signal ∨ ∃ v, fstop = some (View.stoppedV v) := by
  intro fuel
  induction fuel with
  | zero =>
    intro s stopped conts s2 fstop h
    exact absurd h (by simp [runLoop])
  | succ n ih =>
    intro s stopped conts s2 fstop h
    cases stopped with
    | none =>
      cases h
      exact Or.inl rfl
    | some view =>
      cases view with
      | eventsV evs =>
        cases h
        exact Or.inl rfl
      | stoppedV v =>
        simp only [runLoop] at h
        cases hc : classifyStop v with
        | declareSignal d =>
          rw [hc] at h
          cases h
          exact Or.inr ⟨v, rfl⟩
        | spin =>
          rw [hc] at h
          exact ih s (some (View.stoppedV v)) conts s2 fstop h
        | justContinue =>
          rw [hc] at h
          dsimp only at h
          cases conts with
          | nil => exact absurd h (by simp)
          | cons si rest =>
            dsimp only at h
            rcases contResult_cases budget s si with
              ⟨sT, hEq, _, hsig, _, _⟩ | ⟨s3, hEq, _, hsig, _, _⟩
            · rw [hEq] at h
              cases h
              exact Or.inl hsig
            · rw [hEq] at h
              rcases ih s3 (some si.view) rest s2 fstop h with h2 | h2
              · exact Or.inl (h2.trans hsig)
              · exact Or.inr h2
        | record ids =>
          rw [hc] at h
          dsimp only at h
          have hp := (processHits_signal specs v s ids).1
          cases conts with
          | nil => exact absurd h (by simp)
          | cons si rest =>
            dsimp only at h
            rcases contResult_cases budget (processHits specs v s ids) si with
              ⟨sT, hEq, _, hsig, _, _⟩ | ⟨s3, hEq, _, hsig, _, _⟩
            · rw [hEq] at h
              cases h
              exact Or.inl (hsig.trans hp)
            · rw [hEq] at h
              rcases ih s3 (some si.view) rest s2 fstop h with h2 | h2
              · exact Or.inl (h2.trans (hsig.trans hp))
              · exact Or.inr h2

/-! ## Counting breakpoint hits in the adapter trace

The module removes a breakpoint once its `hit_times` reaches the spec's
`hit_limit`, and (as §9 of the specification notes) relies on the adapter
not re-hitting afterwards.  That reliance is the hypothesis under which
the `hit_times ≤ hit_limit` invariant is provable: the whole trace offers
at most `hit_limit` occurrences of the breakpoint's id. -/

def countAt (l : List Int) (x : Int) : Nat :=
  (l.filter (fun y => y == x)).length

/-- Occurrences of `id` in one stopped event's `hitBreakpointIds`. -/
def idCountBody (b : StoppedBody) (id : Int) : Nat :=
  match b.hitIds with
  | .ids l => countAt l id
  | _ => 0

/-- Occurrences of `id` across one view. -/
def idCountView : View → Int → Nat
  | .stoppedV v, id => ((stoppedBodies v.events).map (fun b => idCountBody b id)).sum
  | .eventsV _, _ => 0

def idCountOpt : Option View → Int → Nat
  | some v, id => idCountView v id
  | none, _ => 0

/-- Occurrences of `id` across the `continue_execution` trace. -/
def idCountConts (conts : List StepInput) (id : Int) : Nat :=
  (conts.map (fun si => idCountView si.view id)).sum

/-- The `hit_times` recorded for `id`, zero when `id` has no report. -/
def hitTimesAt (reports : List (Int × BreakpointReport)) (id : Int) : Int :=
  match alistGet reports id with
  | some r => r.hit_times
  | none => 0

theorem countAt_cons (a : Int) (l : List Int) (x : Int) :
    countAt (a :: l) x = (if a = x then 1 else 0) + countAt l x := by
  by_cases h : a = x
  · simp [countAt, List.filter_cons, h, Nat.add_comm]
  · simp [countAt, List.filter_cons, h]

theorem idCountConts_cons (si : StepInput) (rest : List StepInput) (id : Int) :
    idCountConts (si :: rest) id = idCountView si.view id + idCountConts rest id := by
  simp [idCountConts]

theorem processHit_hitTimes_le (specs : List (Int × BreakpointSpec)) (v : StoppedView)
    (top : StackFrame) (bt fname : String) (st : LoopState) (bpId id : Int) :
    hitTimesAt (processHit specs v top bt fname st bpId).reports id ≤
      hitTimesAt st.reports id + (if bpId = id then 1 else 0) := by
  rw [processHit_reports_eq]
  cases hs : alistGet specs bpId with
  | none =>
    by_cases h : bpId = id
    · simp [h]
    · simp [h]
  | some spec =>
    cases hr : alistGet st.reports bpId with
    | none =>
      by_cases h : bpId = id
      · simp [h]
      · simp [h]
    | some report =>
      by_cases h : bpId = id
      · subst h
        rw [if_pos rfl]
        unfold hitTimesAt
        rw [alistGet_alistSet_self, hr]
        dsimp only
        rw [hitUpdatedReport_hit_times]
      · rw [if_neg h]
        unfold hitTimesAt
        rw [alistGet_alistSet_ne _ _ _ _ (fun e => h e.symm)]
        simp

theorem foldl_processHit_hitTimes_le (specs : List (Int × BreakpointSpec)) (v : StoppedView)
    (top : StackFrame) (bt fname : String) (id : Int) :
    ∀ (ids : List Int) (s : LoopState),
    hitTimesAt ((ids.foldl (processHit specs v top bt fname) s).reports) id ≤
      hitTimesAt s.reports id + (countAt ids id : Int) := by
  intro ids
  induction ids with
  | nil =>
    intro s
    simp [countAt]
  | cons i more ih =>
    intro s
    simp only [List.foldl_cons]
    have h1 := ih (processHit specs v top bt fname s i)
    have h2 := processHit_hitTimes_le specs v top bt fname s i id
    rw [countAt_cons]
    by_cases h : i = id
    · rw [if_pos h] at h2 ⊢
      push_cast
      omega
    · rw [if_neg h] at h2 ⊢
      push_cast
      omega

theorem processHits_hitTimes_le (specs : List (Int × BreakpointSpec)) (v : StoppedView)
    (s : LoopState) (ids : List Int) (id : Int) :
    hitTimesAt (processHits specs v s ids).reports id ≤
      hitTimesAt s.reports id + (countAt ids id : Int) := by
  unfold processHits
  cases v.frames with
  | nil =>
    dsimp only
    have : (0 : Int) ≤ (countAt ids id : Int) := Int.ofNat_nonneg _
    omega
  | cons top rest =>
    exact foldl_processHit_hitTimes_le specs v top (compactBacktrace (top :: rest)) top.name id ids s

theorem classifyStop_record {v : StoppedView} {ids : List Int}
    (h : classifyStop v = .record ids) :
    ∃ b ∈ stoppedBodies v.events, b.hitIds = HitIdsAttr.ids ids := by
  unfold classifyStop at h
  cases hf : v.frames with
  | nil =>
    rw [hf] at h
    exact absurd h (by simp)
  | cons top rest =>
    rw [hf] at h
    dsimp only at h
    cases hbp : breakpointBodies v.events with
    | nil =>
      rw [hbp] at h
      dsimp only at h
      cases hsb : stoppedBodies v.events with
      | nil =>
        rw [hsb] at h
        exact absurd h (by simp)
      | cons b more =>
        rw [hsb] at h
        cases more with
        | nil =>
          dsimp only at h
          by_cases he : b.reason = "exception"
          · rw [if_pos he] at h
            exact absurd h (by simp)
          · rw [if_neg he] at h
            exact absurd h (by simp)
        | cons c other => exact absurd h (by simp)
    | cons b more =>
      rw [hbp] at h
      cases more with
      | nil =>
        dsimp only at h
        cases hid : b.hitIds with
        | missing =>
          rw [hid] at h
          exact absurd h (by simp)
        | noneAttr =>
          rw [hid] at h
          exact absurd h (by simp)
        | ids l =>
          rw [hid] at h
          have hl : l = ids := by
            cases h
            rfl
          refine ⟨b, ?_, by rw [hid, hl]⟩
          have : b ∈ breakpointBodies v.events := by
            rw [hbp]
            exact List.mem_singleton_self b
          exact List.mem_of_mem_filter this
      | cons c other => exact absurd h (by simp)

theorem record_count_le_view {v : StoppedView} {ids : List Int} (id : Int)
    (h : classifyStop v = .record ids) :
    (countAt ids id : Int) ≤ (idCountView (View.stoppedV v) id : Int) := by
  obtain ⟨b, hmem, hids⟩ := classifyStop_record h
  have hbody : idCountBody b id = countAt ids id := by
    unfold idCountBody
    rw [hids]
  have hnat : countAt ids id ≤ idCountView (View.stoppedV v) id := by
    unfold idCountView
    rw [← hbody]
    exact List.single_le_sum (fun x _ => Nat.zero_le x) _ (List.mem_map_of_mem _ hmem)
  exact_mod_cast hnat

theorem runLoop_hitTimes_le (budget : Option Rat) (specs : List (Int × BreakpointSpec)) (id : Int) :
    ∀ (fuel : Nat) (s : LoopState) (stopped : Option View) (conts : List StepInput),
    hitTimesAt (outState (runLoop budget specs fuel s stopped conts)).reports id ≤
      hitTimesAt s.reports id + ((idCountOpt stopped id : Int) + (idCountConts conts id : Int)) := by
  intro fuel
  induction fuel with
  | zero =>
    intro s stopped conts
    have h1 : (0 : Int) ≤ (idCountOpt stopped id : Int) := Int.ofNat_nonneg _
    have h2 : (0 : Int) ≤ (idCountConts conts id : Int) := Int.ofNat_nonneg _
    show hitTimesAt s.reports id ≤ _
    omega
  | succ n ih =>
    intro s stopped conts
    have hnn1 : (0 : Int) ≤ (idCountOpt stopped id : Int) := Int.ofNat_nonneg _
    have hnn2 : (0 : Int) ≤ (idCountConts conts id : Int) := Int.ofNat_nonneg _
    cases stopped with
    | none =>
      show hitTimesAt s.reports id ≤ _
      omega
    | some view =>
      cases view with
      | eventsV evs =>
        show hitTimesAt s.reports id ≤ _
        omega
      | stoppedV v =>
        simp only [runLoop]
        cases hc : classifyStop v with
        | declareSignal d =>
          show hitTimesAt s.reports id ≤ _
          omega
        | spin => exact ih s (some (View.stoppedV v)) conts
        | justContinue =>
          dsimp only
          cases conts with
          | nil =>
            show hitTimesAt s.reports id ≤ _
            omega
          | cons si rest =>
            dsimp only
            rcases contResult_cases budget s si with
              ⟨sT, hEq, hrep, _, _, _⟩ | ⟨s2, hEq, hrep, _, _, _⟩
            · rw [hEq]
              show hitTimesAt sT.reports id ≤ _
              rw [hrep]
              have := idCountConts_cons si rest id
              omega
            · rw [hEq]
              have h1 := ih s2 (some si.view) rest
              rw [hrep] at h1
              have h2 := idCountConts_cons si rest id
              have hv : (0 : Int) ≤ (idCountView (View.stoppedV v) id : Int) := Int.ofNat_nonneg _
              simp only [idCountOpt] at h1 ⊢
              push_cast at h1 h2 ⊢
              omega
        | record ids =>
          have hcount := record_count_le_view id hc
          have hpr := processHits_hitTimes_le specs v s ids id
          dsimp only
          cases conts with
          | nil =>
            show hitTimesAt (processHits specs v s ids).reports id ≤ _
            simp only [idCountOpt] at hcount ⊢
            omega
          | cons si rest =>
            dsimp only
            rcases contResult_cases budget (processHits specs v s ids) si with
              ⟨sT, hEq, hrep, _, _, _⟩ | ⟨s2, hEq, hrep, _, _, _⟩
            · rw [hEq]
              show hitTimesAt sT.reports id ≤ _
              rw [hrep]
              have h2 := idCountConts_cons si rest id
              simp only [idCountOpt] at hcount ⊢
              push_cast at h2 ⊢
              omega
            · rw [hEq]
              have h1 := ih s2 (some si.view) rest
              rw [hrep] at h1
              have h2 := idCountConts_cons si rest id
              simp only [idCountOpt] at h1 hcount ⊢
              push_cast at h1 h2 ⊢
              omega

/-! ## Registration establishes the invariant -/

theorem mem_alistSet_weak {α : Type} {l : List (Int × α)} {k : Int} {v : α}
    {p : Int × α} (h : p ∈ alistSet l k v) : p = (k, v) ∨ p ∈ l := by
  induction l with
  | nil =>
    simp only [alistSet, List.mem_singleton] at h
    exact Or.inl h
  | cons q rest ih =>
    rcases q with ⟨a, b⟩
    by_cases hq : a = k
    · simp only [alistSet, if_pos hq, List.mem_cons] at h
      rcases h with h | h
      · left
        rw [h, hq]
      · exact Or.inr (List.mem_cons_of_mem _ h)
    · simp only [alistSet, if_neg hq, List.mem_cons] at h
      rcases h with h | h
      · exact Or.inr (by rw [h]; exact List.mem_cons_self _ _)
      · rcases ih h with h2 | h2
        · exact Or.inl h2
        · exact Or.inr (List.mem_cons_of_mem _ h2)

theorem registerOne_good (spec : BreakpointSpec) (outcome : SetBpResult)
    (acc : List (Int × BreakpointSpec) × List (Int × BreakpointReport))
    (h1 : keysNodup acc.1) (h : goodReports acc.1 acc.2)
    (h0 : ∀ p ∈ acc.2, p.2.hit_times = 0) :
    keysNodup (registerOne acc spec outcome).1 ∧
    goodReports (registerOne acc spec outcome).1 (registerOne acc spec outcome).2 ∧
    ∀ p ∈ (registerOne acc spec outcome).2, p.2.hit_times = 0 := by
  unfold registerOne
  cases pyRsplitColon spec.location with
  | none => exact ⟨h1, h, h0⟩
  | some fpln =>
    rcases fpln with ⟨fp, lnStr⟩
    dsimp only
    cases pyInt? lnStr with
    | none => exact ⟨h1, h, h0⟩
    | some ln =>
      dsimp only
      cases regOutcomeId outcome with
      | none => exact ⟨h1, h, h0⟩
      | some bpId =>
        dsimp only
        refine ⟨keysNodup_alistSet _ _ h1, ⟨keysNodup_alistSet _ _ h.1, ?_⟩, ?_⟩
        · intro p hp
          rcases mem_alistSet_cases h.1 hp with he | ⟨hmem, hne⟩
          · refine ⟨spec, ?_, ?_, ?_⟩
            · rw [he]
              exact alistGet_alistSet_self _ _ _
            · rw [he]
              simp
            · rw [he]
              intro hh hhmem
              simp at hhmem
          · obtain ⟨spec0, hget, hbal, hnames⟩ := h.2 p hmem
            exact ⟨spec0, by rw [alistGet_alistSet_ne _ _ _ _ hne]; exact hget,
                   hbal, hnames⟩
        · intro p hp
          rcases mem_alistSet_weak hp with he | hmem
          · rw [he]
          · exact h0 p hmem


theorem registerFold_good (oracle : Nat → SetBpResult) :
    ∀ (l : List (Nat × BreakpointSpec))
      (acc : List (Int × BreakpointSpec) × List (Int × BreakpointReport)),
    keysNodup acc.1 → goodReports acc.1 acc.2 → (∀ p ∈ acc.2, p.2.hit_times = 0) →
    keysNodup (l.foldl (fun acc p => registerOne acc p.2 (oracle p.1)) acc).1 ∧
    goodReports (l.foldl (fun acc p => registerOne acc p.2 (oracle p.1)) acc).1
      (l.foldl (fun acc p => registerOne acc p.2 (oracle p.1)) acc).2 ∧
    ∀ p ∈ (l.foldl (fun acc p => registerOne acc p.2 (oracle p.1)) acc).2,
      p.2.hit_times = 0 := by
  intro l
  induction l with
  | nil =>
    intro acc h1 h h0
    exact ⟨h1, h, h0⟩
  | cons q rest ih =>
    intro acc h1 h h0
    simp only [List.foldl_cons]
    obtain ⟨g1, g, g0⟩ := registerOne_good q.2 (oracle q.1) acc h1 h h0
    exact ih _ g1 g g0

theorem registerSpecs_good (specs : List BreakpointSpec) (oracle : Nat → SetBpResult) :
    keysNodup (registerSpecs specs oracle).1 ∧
    goodReports (registerSpecs specs oracle).1 (registerSpecs specs oracle).2 ∧
    ∀ p ∈ (registerSpecs specs oracle).2, p.2.hit_times = 0 := by
  unfold registerSpecs
  refine registerFold_good oracle specs.enum ([], []) ?_ ⟨?_, ?_⟩ ?_
  · simp [keysNodup]
  · simp [keysNodup]
  · intro p hp
    simp at hp
  · intro p hp
    simp at hp

theorem hitTimesAt_registerSpecs (specs : List BreakpointSpec)
    (oracle : Nat → SetBpResult) (id : Int) :
    hitTimesAt (registerSpecs specs oracle).2 id = 0 := by
  unfold hitTimesAt
  cases hg : alistGet (registerSpecs specs oracle).2 id with
  | none => rfl
  | some r =>
    have := (registerSpecs_good specs oracle).2.2 (id, r) (alistGet_mem hg)
    simpa using this

/-! ## Dissecting a completed run -/

theorem specMapOf_eq {inp : RunInput} {nspecs : List BreakpointSpec}
    (h : normalizeLocations inp.fs inp.repoDir inp.sourceMap inp.breakpoints = .ok nspecs) :
    specMapOf inp = (registerSpecs nspecs inp.regOracle).1 := by
  unfold specMapOf
  rw [h]

theorem launchResult_fst (inp : RunInput) (budget : Option Rat) (st0 : LoopState) :
    (launchResult inp budget st0).1.reports = st0.reports ∧
    (launchResult inp budget st0).1.signal = st0.signal ∧
    (launchResult inp budget st0).1.exitCode = st0.exitCode := by
  unfold launchResult
  rcases withTimeout_cases budget inp.launch.elapsed inp.launch.timerWins inp.launch.view with h | h
  · rw [h]
    exact ⟨rfl, rfl, rfl⟩
  · rw [h]
    exact ⟨rfl, rfl, rfl⟩

theorem launchResult_count (inp : RunInput) (budget : Option Rat) (st0 : LoopState) (id : Int) :
    (idCountOpt (launchResult inp budget st0).2 id : Int) ≤
      (idCountView inp.launch.view id : Int) := by
  unfold launchResult
  rcases withTimeout_cases budget inp.launch.elapsed inp.launch.timerWins inp.launch.view with h | h
  · rw [h]
    exact Int.ofNat_nonneg _
  · rw [h]
    dsimp only [idCountOpt]
    exact le_refl _

theorem applyExitEvents_fields (s : LoopState) (fstop : Option View) :
    (applyExitEvents s fstop).reports = s.reports ∧
    (applyExitEvents s fstop).signal = s.signal ∧
    (applyExitEvents s fstop).timeout = s.timeout := by
  unfold applyExitEvents
  cases fstop with
  | none => exact ⟨rfl, rfl, rfl⟩
  | some view =>
    cases view with
    | stoppedV v => exact ⟨rfl, rfl, rfl⟩
    | eventsV evs =>
      dsimp only
      cases (evs.filterMap fun e =>
              match e with
              | DapEvent.exited c => some c
              | _ => none).head? with
      | none => exact ⟨rfl, rfl, rfl⟩
      | some c => exact ⟨rfl, rfl, rfl⟩

theorem applyExitEvents_exit (s : LoopState) (fstop : Option View) :
    (applyExitEvents s fstop).exitCode = s.exitCode ∨
    ∃ evs, fstop = some (View.eventsV evs) := by
  unfold applyExitEvents
  cases fstop with
  | none => exact Or.inl rfl
  | some view =>
    cases view with
    | stoppedV v => exact Or.inl rfl
    | eventsV evs => exact Or.inr ⟨evs, rfl⟩

/-- Every `.ok` outcome of `runDap` factors through a `.finished` loop
outcome on the registered maps. -/
theorem runDap_ok_cases {inp : RunInput} {budget : Option Rat} {r : RuntimeFeedback}
    (hrun : runDap inp budget = RunOutcome.ok r) :
    ∃ nspecs s fstop,
      normalizeLocations inp.fs inp.repoDir inp.sourceMap inp.breakpoints = Except.ok nspecs ∧
      runLoop budget (registerSpecs nspecs inp.regOracle).1 (inp.conts.length + 1)
        (launchResult inp budget (initialState (registerSpecs nspecs inp.regOracle).2)).1
        (launchResult inp budget (initialState (registerSpecs nspecs inp.regOracle).2)).2
        inp.conts = .finished s fstop ∧
      r.reports = (applyExitEvents s fstop).reports ∧
      r.timeout = (applyExitEvents s fstop).timeout ∧
      r.exit_code = (applyExitEvents s fstop).exitCode ∧
      r.signal = (applyExitEvents s fstop).signal := by
  unfold runDap at hrun
  cases hn : normalizeLocations inp.fs inp.repoDir inp.sourceMap inp.breakpoints with
  | error e =>
    rw [hn] at hrun
    exact absurd hrun (by simp)
  | ok nspecs =>
    rw [hn] at hrun
    dsimp only at hrun
    cases hl : runLoop budget (registerSpecs nspecs inp.regOracle).1 (inp.conts.length + 1)
        (launchResult inp budget (initialState (registerSpecs nspecs inp.regOracle).2)).1
        (launchResult inp budget (initialState (registerSpecs nspecs inp.regOracle).2)).2
        inp.conts with
    | incomplete s =>
      rw [hl] at hrun
      exact absurd hrun (by simp)
    | finished s fstop =>
      rw [hl] at hrun
      dsimp only at hrun
      have hr := (RunOutcome.ok.injEq _ _).mp hrun
      refine ⟨nspecs, s, fstop, rfl, hl, ?_, ?_, ?_, ?_⟩
      · rw [← hr]
      · rw [← hr]
      · rw [← hr]
      · rw [← hr]

/-! ## Concrete sessions used by the witness theorems -/

/-- A filesystem oracle on which every path exists. -/
def wFs : FileSystem :=
  { pathExists := fun _ => true, resolve := fun p => p, pathStr := fun p => p }

/-- A filesystem oracle on which no path exists. -/
def wFsNo : FileSystem :=
  { pathExists := fun _ => false, resolve := fun p => p, pathStr := fun p => p }

def wSpec1 : BreakpointSpec :=
  { location := "/a.c:3", hit_limit := 10, inline_expr := ["i"], print_call_stack := true }

def wFrame1 : StackFrame :=
  { name := "main", line := 3, source := some { name := some "a.c", path := some "/a.c" } }

/-- One breakpoint stop at `wFrame1`, hitting adapter id 1, every
expression evaluating to `"0"`. -/
def wStop1 : StoppedView :=
  { frames := [wFrame1]
    events := [DapEvent.stopped
      { reason := "breakpoint", description := none, hitIds := HitIdsAttr.ids [1] }]
    evalOracle := fun _ => EvalOutcome.response true (some { result := some "0", error := none }) }

/-- A session: one spec, registered as id 1, one hit, then a normal exit
with code 0. -/
def wInp1 : RunInput :=
  { breakpoints := [wSpec1]
    repoDir := none
    sourceMap := []
    fs := wFs
    regOracle := fun _ => SetBpResult.response true [some 1]
    launch := { elapsed := 0, timerWins := false, view := View.stoppedV wStop1 }
    conts := [{ elapsed := 0, timerWins := false, view := View.eventsV [DapEvent.exited 0] }]
    stdoutBytes := []
    stderrBytes := [] }

/-- The report `wInp1` produces. -/
def wRep1 : BreakpointReport :=
  { id := 1, file_path := "/a.c", line := 3, function_name := "main", hit_times := 1
    hits_info := [{ callstack := "* #0: main at a.c:3"
                    inline_expr := [{ name := "i", value := "0" }] }] }

/-- The feedback `wInp1` produces. -/
def wR1 : RuntimeFeedback :=
  { stdout := [], stderr := [], reports := [(1, wRep1)], timeout := false
    exit_code := some 0, signal := none }

/-! ## C1 -/

/-- C1: for every report returned by a run, `hit_times` equals the length
of `hits_info`; and, provided the adapter offers each registered
breakpoint id at most `hit_limit` times across the whole trace (§9 of the
specification: the module removes the breakpoint at the limit-reaching hit
and relies on the adapter not re-hitting it afterwards), `hit_times` is at
most the registered spec's `hit_limit`.  Both equalities hold at every
recorded hit, the limit-reaching one included, because `hit_times` and
`hits_info` are extended together in `processHit`. -/
theorem hit_times_matches_hits_info_and_limit
    (inp : RunInput) (budget : Option Rat) (r : RuntimeFeedback)
    (hrun : runDap inp budget = RunOutcome.ok r)
    (hadapter : ∀ p ∈ specMapOf inp,
      ((idCountView inp.launch.view p.1 : Int) + (idCountConts inp.conts p.1 : Int)) ≤
        p.2.hit_limit) :
    ∀ p ∈ r.reports,
      p.2.hit_times = (p.2.hits_info.length : Int) ∧
      ∃ spec, alistGet (specMapOf inp) p.1 = some spec ∧ p.2.hit_times ≤ spec.hit_limit := by
  obtain ⟨nspecs, s, fstop, hn, hl, hrep, _, _, _⟩ := runDap_ok_cases hrun
  have hmap := specMapOf_eq hn
  obtain ⟨hnd1, hgood0, hzero⟩ := registerSpecs_good nspecs inp.regOracle
  have hlfst := (launchResult_fst inp budget
    (initialState (registerSpecs nspecs inp.regOracle).2)).1
  have hgoodLaunch : goodReports (registerSpecs nspecs inp.regOracle).1
      (launchResult inp budget (initialState (registerSpecs nspecs inp.regOracle).2)).1.reports := by
    rw [hlfst]
    exact hgood0
  have hout : outState (runLoop budget (registerSpecs nspecs inp.regOracle).1
      (inp.conts.length + 1)
      (launchResult inp budget (initialState (registerSpecs nspecs inp.regOracle).2)).1
      (launchResult inp budget (initialState (registerSpecs nspecs inp.regOracle).2)).2
      inp.conts) = s := by
    rw [hl]
    rfl
  have hgoodS : goodReports (registerSpecs nspecs inp.regOracle).1 s.reports := by
    have := runLoop_good budget (registerSpecs nspecs inp.regOracle).1
      (inp.conts.length + 1)
      (launchResult inp budget (initialState (registerSpecs nspecs inp.regOracle).2)).1
      (launchResult inp budget (initialState (registerSpecs nspecs inp.regOracle).2)).2
      inp.conts hgoodLaunch
    rw [hout] at this
    exact this
  intro p hp
  rw [hrep, (applyExitEvents_fields s fstop).1] at hp
  obtain ⟨spec, hget, hbal, _⟩ := hgoodS.2 p hp
  refine ⟨hbal, spec, by rw [hmap]; exact hget, ?_⟩
  have hmemP : (p.1, p.2) ∈ s.reports := by simpa using hp
  have hgetP : alistGet s.reports p.1 = some p.2 := mem_alistGet hgoodS.1 hmemP
  have hhs : hitTimesAt s.reports p.1 = p.2.hit_times := by
    unfold hitTimesAt
    rw [hgetP]
  have hle := runLoop_hitTimes_le budget (registerSpecs nspecs inp.regOracle).1 p.1
    (inp.conts.length + 1)
    (launchResult inp budget (initialState (registerSpecs nspecs inp.regOracle).2)).1
    (launchResult inp budget (initialState (registerSpecs nspecs inp.regOracle).2)).2
    inp.conts
  rw [hout, hhs] at hle
  have hzeroT : hitTimesAt
      (launchResult inp budget (initialState (registerSpecs nspecs inp.regOracle).2)).1.reports
      p.1 = 0 := by
    rw [hlfst]
    exact hitTimesAt_registerSpecs nspecs inp.regOracle p.1
  rw [hzeroT] at hle
  have hlc := launchResult_count inp budget
    (initialState (registerSpecs nspecs inp.regOracle).2) p.1
  have hcap := hadapter (p.1, spec) (by rw [hmap]; exact alistGet_mem hget)
  dsimp only at hcap
  omega

/-- C1 witness: the one-hit session `wInp1` satisfies the adapter-side
hypothesis and its report records one hit, one hit info, within the limit. -/
theorem hit_times_matches_hits_info_and_limit_witness :
    wRep1.hit_times = (wRep1.hits_info.length : Int) ∧
    ∃ spec, alistGet (specMapOf wInp1) 1 = some spec ∧ wRep1.hit_times ≤ spec.hit_limit :=
  hit_times_matches_hits_info_and_limit wInp1 none wR1 (by decide) (by decide)
    (1, wRep1) (by decide)

/-! ## C2 -/

/-- C2: for every hit recorded in any report of a completed run, the names
in `inline_expr` are exactly the registered spec's `inline_expr` list —
same count, same order — one entry appended per declared expression
whatever each evaluation's outcome. -/
theorem hit_inline_expr_names_match_spec
    (inp : RunInput) (budget : Option Rat) (r : RuntimeFeedback)
    (hrun : runDap inp budget = RunOutcome.ok r) :
    ∀ p ∈ r.reports,
      ∃ spec, alistGet (specMapOf inp) p.1 = some spec ∧
        ∀ h ∈ p.2.hits_info, h.inline_expr.map InlineExprValue.name = spec.inline_expr := by
  obtain ⟨nspecs, s, fstop, hn, hl, hrep, _, _, _⟩ := runDap_ok_cases hrun
  have hmap := specMapOf_eq hn
  obtain ⟨hnd1, hgood0, hzero⟩ := registerSpecs_good nspecs inp.regOracle
  have hlfst := (launchResult_fst inp budget
    (initialState (registerSpecs nspecs inp.regOracle).2)).1
  have hgoodLaunch : goodReports (registerSpecs nspecs inp.regOracle).1
      (launchResult inp budget (initialState (registerSpecs nspecs inp.regOracle).2)).1.reports := by
    rw [hlfst]
    exact hgood0
  have hout : outState (runLoop budget (registerSpecs nspecs inp.regOracle).1
      (inp.conts.length + 1)
      (launchResult inp budget (initialState (registerSpecs nspecs inp.regOracle).2)).1
      (launchResult inp budget (initialState (registerSpecs nspecs inp.regOracle).2)).2
      inp.conts) = s := by
    rw [hl]
    rfl
  have hgoodS : goodReports (registerSpecs nspecs inp.regOracle).1 s.reports := by
    have := runLoop_good budget (registerSpecs nspecs inp.regOracle).1
      (inp.conts.length + 1)
      (launchResult inp budget (initialState (registerSpecs nspecs inp.regOracle).2)).1
      (launchResult inp budget (initialState (registerSpecs nspecs inp.regOracle).2)).2
      inp.conts hgoodLaunch
    rw [hout] at this
    exact this
  intro p hp
  rw [hrep, (applyExitEvents_fields s fstop).1] at hp
  obtain ⟨spec, hget, _, hnames⟩ := hgoodS.2 p hp
  exact ⟨spec, by rw [hmap]; exact hget, hnames⟩

/-- C2 witness: in the one-hit session `wInp1`, the recorded hit's
expression names equal the spec's declared list `["i"]`. -/
theorem hit_inline_expr_names_match_spec_witness :
    ∃ spec, alistGet (specMapOf wInp1) 1 = some spec ∧
      ∀ h ∈ wRep1.hits_info, h.inline_expr.map InlineExprValue.name = spec.inline_expr :=
  hit_inline_expr_names_match_spec wInp1 none wR1 (by decide) (1, wRep1) (by decide)

/-! ## C3 -/

theorem classifyStop_exception {v : StoppedView} {b : StoppedBody}
    (hf : v.frames ≠ []) (hbp : breakpointBodies v.events = [])
    (hsb : stoppedBodies v.events = [b]) (hr : b.reason = "exception") :
    classifyStop v = StopAction.declareSignal b.description := by
  unfold classifyStop
  cases hfr : v.frames with
  | nil => exact absurd hfr hf
  | cons top rest =>
    dsimp only
    rw [hbp]
    dsimp only
    rw [hsb]
    dsimp only
    rw [if_pos hr]

/-- An exception stop as the module observes one: non-empty frames, no
breakpoint-reason stopped event, exactly one stopped event overall, with
reason `"exception"`. -/
def wStopExc : StoppedView :=
  { frames := [wFrame1]
    events := [DapEvent.stopped
      { reason := "exception", description := some "EXC_BAD_ACCESS (code=1, address=0x0)"
        hitIds := HitIdsAttr.missing }]
    evalOracle := fun _ => EvalOutcome.raised }

/-- C3: a stop classified as an exception makes the loop record the
stopped event's description as `result.signal` and break out with the
stopped view as the final `stopped` (so the `ExitedEvent` scan cannot
run); consequently in every completed run a set `signal` forces
`exit_code = None`, and `exit_code` and `signal` are never both set. -/
theorem exception_stop_records_signal_and_excludes_exit_code :
    (∀ (budget : Option Rat) (specs : List (Int × BreakpointSpec)) (fuel : Nat)
       (s : LoopState) (v : StoppedView) (conts : List StepInput) (b : StoppedBody),
      v.frames ≠ [] → breakpointBodies v.events = [] →
      stoppedBodies v.events = [b] → b.reason = "exception" →
      runLoop budget specs (fuel + 1) s (some (View.stoppedV v)) conts =
        LoopOutcome.finished { s with signal := b.description } (some (View.stoppedV v))) ∧
    (∀ (inp : RunInput) (budget : Option Rat) (r : RuntimeFeedback),
      runDap inp budget = RunOutcome.ok r →
      (r.signal.isSome → r.exit_code = none) ∧
      ¬(r.exit_code.isSome ∧ r.signal.isSome)) := by
  constructor
  · intro budget specs fuel s v conts b hf hbp hsb hr
    have hc := classifyStop_exception hf hbp hsb hr
    simp only [runLoop]
    rw [hc]
  · intro inp budget r hrun
    obtain ⟨nspecs, s, fstop, hn, hl, _, _, hexit, hsig⟩ := runDap_ok_cases hrun
    have hsigf := (applyExitEvents_fields s fstop).2.1
    have hout : outState (runLoop budget (registerSpecs nspecs inp.regOracle).1
        (inp.conts.length + 1)
        (launchResult inp budget (initialState (registerSpecs nspecs inp.regOracle).2)).1
        (launchResult inp budget (initialState (registerSpecs nspecs inp.regOracle).2)).2
        inp.conts) = s := by
      rw [hl]
      rfl
    have hsig0 : (launchResult inp budget
        (initialState (registerSpecs nspecs inp.regOracle).2)).1.signal = none :=
      ((launchResult_fst inp budget (initialState (registerSpecs nspecs inp.regOracle).2)).2.1)
    have hexit0 : (launchResult inp budget
        (initialState (registerSpecs nspecs inp.regOracle).2)).1.exitCode = none :=
      ((launchResult_fst inp budget (initialState (registerSpecs nspecs inp.regOracle).2)).2.2)
    have hexitS : s.exitCode = none := by
      have := runLoop_exitCode budget (registerSpecs nspecs inp.regOracle).1
        (inp.conts.length + 1)
        (launchResult inp budget (initialState (registerSpecs nspecs inp.regOracle).2)).1
        (launchResult inp budget (initialState (registerSpecs nspecs inp.regOracle).2)).2
        inp.conts
      rw [hout] at this
      rw [this, hexit0]
    have key : r.signal.isSome → r.exit_code = none := by
      intro hs
      rcases applyExitEvents_exit s fstop with hae | ⟨evs, hevs⟩
      · rw [hexit, hae, hexitS]
      · rcases runLoop_signal_finished budget (registerSpecs nspecs inp.regOracle).1
            (inp.conts.length + 1)
            (launchResult inp budget (initialState (registerSpecs nspecs inp.regOracle).2)).1
            (launchResult inp budget (initialState (registerSpecs nspecs inp.regOracle).2)).2
            inp.conts s fstop hl with hs0 | ⟨v, hv⟩
        · rw [hsig, hsigf, hs0, hsig0] at hs
          simp at hs
        · rw [hevs] at hv
          simp at hv
    refine ⟨key, ?_⟩
    rintro ⟨he, hs⟩
    rw [key hs] at he
    simp at he

/-- C3 witness: a concrete exception stop yields `finished` with the
description as signal; and the completed run `wInp1` never sets both
`exit_code` and `signal`. -/
theorem exception_stop_records_signal_and_excludes_exit_code_witness :
    runLoop none [] 1 (initialState []) (some (View.stoppedV wStopExc)) [] =
      LoopOutcome.finished
        { initialState [] with signal := some "EXC_BAD_ACCESS (code=1, address=0x0)" }
        (some (View.stoppedV wStopExc)) ∧
    ((wR1.signal.isSome → wR1.exit_code = none) ∧
     ¬(wR1.exit_code.isSome ∧ wR1.signal.isSome)) :=
  ⟨exception_stop_records_signal_and_excludes_exit_code.1 none [] 0 (initialState [])
      wStopExc []
      { reason := "exception", description := some "EXC_BAD_ACCESS (code=1, address=0x0)"
        hitIds := HitIdsAttr.missing }
      (by decide) (by decide) (by decide) rfl,
   exception_stop_records_signal_and_excludes_exit_code.2 wInp1 none wR1 (by decide)⟩

/-! ## C4 -/

theorem classifyStop_emptyFrames {v : StoppedView} (hf : v.frames = []) :
    classifyStop v = StopAction.justContinue := by
  unfold classifyStop
  rw [hf]

/-- C4: the timeout gate with no budget simply returns the operation's
result (even when the timer would win the race); with a budget whose
remaining time is not positive it raises timeout without consulting the
operation's outcome; a launch-time timeout produces a completed run with
`timeout = true`; and a timeout at a continue-execution suspension makes
`contResult` — the single wrapper every continue site uses — return the
state with `timeout = true`, on which the loop breaks out with a partial
result. -/
theorem timeout_gate_behavior :
    (∀ (α : Type) (e : Rat) (t : Bool) (res : α), withTimeout none e t res = Except.ok res) ∧
    (∀ (α : Type) (b e : Rat) (t : Bool) (res : α),
      b - e ≤ 0 → withTimeout (some b) e t res = Except.error ()) ∧
    (∀ (inp : RunInput) (budget : Option Rat) (nspecs : List BreakpointSpec),
      normalizeLocations inp.fs inp.repoDir inp.sourceMap inp.breakpoints = Except.ok nspecs →
      withTimeout budget inp.launch.elapsed inp.launch.timerWins inp.launch.view =
        Except.error () →
      ∃ r, runDap inp budget = RunOutcome.ok r ∧ r.timeout = true ∧ r.exit_code = none) ∧
    (∀ (budget : Option Rat) (s : LoopState) (si : StepInput),
      withTimeout budget si.elapsed si.timerWins si.view = Except.error () →
      ∃ sT, contResult budget s si = Except.error sT ∧ sT.timeout = true) ∧
    (∀ (budget : Option Rat) (specs : List (Int × BreakpointSpec)) (fuel : Nat)
       (s sT : LoopState) (v : StoppedView) (si : StepInput) (rest : List StepInput),
      v.frames = [] →
      contResult budget s si = Except.error sT →
      runLoop budget specs (fuel + 1) s (some (View.stoppedV v)) (si :: rest) =
        LoopOutcome.finished sT (some (View.stoppedV v))) := by
  refine ⟨fun α e t res => rfl, ?_, ?_, ?_, ?_⟩
  · intro α b e t res h
    unfold withTimeout
    dsimp only
    rw [if_pos h]
  · intro inp budget nspecs hn herr
    unfold runDap launchResult
    rw [hn, herr]
    simp only [runLoop]
    exact ⟨_, rfl, rfl, rfl⟩
  · intro budget s si herr
    unfold contResult
    rw [herr]
    exact ⟨_, rfl, rfl⟩
  · intro budget specs fuel s sT v si rest hf herr
    have hc := classifyStop_emptyFrames hf
    simp only [runLoop]
    rw [hc]
    dsimp only
    rw [herr]

/-- Step input whose operation completes instantly at elapsed 0 with the
timer not winning. -/
def wSiExit : StepInput :=
  { elapsed := 0, timerWins := false, view := View.eventsV [DapEvent.exited 0] }

/-- A stop view with no frames (a spurious stop). -/
def wStopNoFrames : StoppedView :=
  { frames := [], events := [], evalOracle := fun _ => EvalOutcome.raised }

/-- C4 witness: the gate at concrete inputs — no budget passes the value
through; an exhausted budget (1 − 2 ≤ 0) times out; with budget 0 the
launch of `wInp1` times out into a partial result; and a timed-out
continue at an empty-frames stop finishes the loop with `timeout = true`. -/
theorem timeout_gate_behavior_witness :
    withTimeout none 0 true (View.eventsV []) = Except.ok (View.eventsV []) ∧
    withTimeout (some 1) 2 false (View.eventsV []) = Except.error () ∧
    (∃ r, runDap wInp1 (some 0) = RunOutcome.ok r ∧ r.timeout = true ∧ r.exit_code = none) ∧
    (∃ sT, contResult (some 0) (initialState []) wSiExit = Except.error sT ∧
      sT.timeout = true) ∧
    runLoop (some 0) [] 1 (initialState []) (some (View.stoppedV wStopNoFrames)) [wSiExit] =
      LoopOutcome.finished
        { initialState [] with requests := [Request.continueExec], timeout := true }
        (some (View.stoppedV wStopNoFrames)) :=
  ⟨timeout_gate_behavior.1 View 0 true (View.eventsV []),
   timeout_gate_behavior.2.1 View 1 2 false (View.eventsV []) (by norm_num),
   timeout_gate_behavior.2.2.1 wInp1 (some 0) [wSpec1] rfl (by simp [withTimeout, wInp1]),
   timeout_gate_behavior.2.2.2.1 (some 0) (initialState []) wSiExit (by simp [withTimeout, wSiExit]),
   timeout_gate_behavior.2.2.2.2 (some 0) [] 0 (initialState [])
     { initialState [] with requests := [Request.continueExec], timeout := true }
     wStopNoFrames wSiExit [] rfl (by simp [contResult, withTimeout, wSiExit, initialState])⟩

/-! ## C5 -/

/-- C5 counterexample: the specification's table claims every trigger is
matched case-insensitively, but the source matches the first three
triggers case-sensitively.  On the adapter message `"Use of undeclared
identifier 'x'"` (capital `U`), the code records the generic fallback tag
while the specification's case-insensitive rule would produce the
undeclared-identifier tag. -/
theorem eval_error_tag_counterexample :
    evalValue "x" (EvalOutcome.errorResponse
      (some "Use of undeclared identifier \x27x\x27")) =
      "<evaluation error for x>" ∧
    specClassifyError "x" "Use of undeclared identifier \x27x\x27" =
      "<use of undeclared identifier \x27x\x27>" ∧
    evalValue "x" (EvalOutcome.errorResponse
      (some "Use of undeclared identifier \x27x\x27")) ≠
      specClassifyError "x" "Use of undeclared identifier \x27x\x27" :=
  ⟨by decide, by decide, by decide⟩

/-- C5 amended: for every adapter-signalled evaluation error the recorded
value is the tag produced by matching the triggers in table order, the
first three (`use of undeclared identifier`, `no member named`, `cannot be
used`) as case-SENSITIVE substrings and the last two (`not found`,
`undefined`) case-insensitively, with `<evaluation error for expr>` as
fallback (an absent error message counts as the empty string); and a
transport-level exception during evaluation yields
`<runtime_value_unavailable>`.  No outcome aborts the session: `evalValue`
is total and `processHit` appends an entry for every declared expression
whatever the outcome. -/
theorem eval_error_tag_amended (var : String) (opt : Option String) :
    evalValue var (EvalOutcome.errorResponse opt) =
      amendedClassifyError var (opt.getD "") ∧
    evalValue var EvalOutcome.raised = "<runtime_value_unavailable>" :=
  ⟨rfl, rfl⟩

/-! ## C6 -/

/-- A session whose one breakpoint location has no `:` separator. -/
def wInpNoColon : RunInput :=
  { breakpoints := [{ location := "mainc" }]
    repoDir := none
    sourceMap := []
    fs := wFsNo
    regOracle := fun _ => SetBpResult.raised
    launch := wSiExit
    conts := []
    stdoutBytes := []
    stderrBytes := [] }

/-- Like `wInpNoColon` but with a colon present and a non-integer line
suffix. -/
def wInpBadLine : RunInput :=
  { breakpoints := [{ location := "a.c:foo" }]
    repoDir := none
    sourceMap := []
    fs := wFsNo
    regOracle := fun _ => SetBpResult.raised
    launch := wSiExit
    conts := []
    stdoutBytes := []
    stderrBytes := [] }

/-- C6 (code bug): a breakpoint location with no `:` separator is NOT
logged-and-skipped: the two-element unpacking in `_normalize_locations`
(line 130) raises `ValueError` outside any handler, so `_run_dap` raises
to the caller — contradicting both the claim and the module's own
docstring ("All other errors (invalid breakpoint locations, ...) are
handled gracefully and logged as warnings without raising exceptions").
A line suffix that is not an integer, by contrast, fails inside the
per-spec `try/except` of the registration loop and is skipped as claimed:
the same run completes normally with no report. -/
theorem no_colon_location_raises_to_caller :
    normalizeLocations wFsNo none [] [{ location := "mainc" }] =
      Except.error "ValueError: not enough values to unpack (expected 2, got 1)" ∧
    runDap wInpNoColon none =
      RunOutcome.raised "ValueError: not enough values to unpack (expected 2, got 1)" ∧
    runDap wInpBadLine none =
      RunOutcome.ok { stdout := [], stderr := [], reports := [], timeout := false
                      exit_code := some 0, signal := none } :=
  ⟨rfl, by decide, by decide⟩

/-! ## C9 -/

/-- A breakpoint stop whose `hitBreakpointIds` attribute is present but
`None`. -/
def wStopSpin : StoppedView :=
  { frames := [wFrame1]
    events := [DapEvent.stopped
      { reason := "breakpoint", description := none, hitIds := HitIdsAttr.noneAttr }]
    evalOracle := fun _ => EvalOutcome.raised }

/-- C9: at a stop with non-empty frames and exactly one breakpoint
`StoppedEvent` whose `hitBreakpointIds` is `None`, the `continue`
statement at line 366 re-enters the `while True` loop with the same
`stopped` view: for EVERY fuel the loop returns `incomplete` with the
state untouched — in particular `requests` is unchanged, so no
continue-execution request is ever issued, no trace element is consumed,
and the loop never terminates for such a stop. -/
theorem none_hit_ids_spins_forever (budget : Option Rat)
    (specs : List (Int × BreakpointSpec)) (fuel : Nat) (s : LoopState)
    (v : StoppedView) (conts : List StepInput) (b : StoppedBody)
    (hf : v.frames ≠ [])
    (hbp : breakpointBodies v.events = [b])
    (hid : b.hitIds = HitIdsAttr.noneAttr) :
    runLoop budget specs fuel s (some (View.stoppedV v)) conts =
      LoopOutcome.incomplete s := by
  have hc : classifyStop v = StopAction.spin := by
    unfold classifyStop
    cases hfr : v.frames with
    | nil => exact absurd hfr hf
    | cons top rest =>
      dsimp only
      rw [hbp]
      dsimp only
      rw [hid]
  induction fuel with
  | zero => rfl
  | succ n ih =>
    simp only [runLoop]
    rw [hc]
    exact ih

/-- C9 witness: a concrete `None`-ids stop spins: with fuel 5 and a
non-empty pending trace, the loop returns `incomplete` with the initial
state untouched. -/
theorem none_hit_ids_spins_forever_witness :
    runLoop none [] 5 (initialState []) (some (View.stoppedV wStopSpin)) [wSiExit] =
      LoopOutcome.incomplete (initialState []) :=
  none_hit_ids_spins_forever none [] 5 (initialState []) wStopSpin [wSiExit]
    { reason := "breakpoint", description := none, hitIds := HitIdsAttr.noneAttr }
    (by decide) (by decide) rfl

/-! ## C10 -/

/-- A trivial session: no breakpoints, immediate normal termination. -/
def wInp0 : RunInput :=
  { breakpoints := []
    repoDir := none
    sourceMap := []
    fs := wFs
    regOracle := fun _ => SetBpResult.raised
    launch := wSiExit
    conts := []
    stdoutBytes := []
    stderrBytes := [] }

/-- The feedback `wInp0` produces. -/
def wR0 : RuntimeFeedback :=
  { stdout := [], stderr := [], reports := [], timeout := false
    exit_code := some 0, signal := none }

/-- C10: `RuntimeDebugger.run` converts `timeout_sec` with
`float(timeout_sec) if timeout_sec else None`, and `0` is falsy: a `0`
budget is identical to `None` — the run has no wall-clock budget at all,
no suspension point can time out, and a completed run's timeout flag is
`false` rather than timing out immediately. -/
theorem zero_timeout_sec_means_no_budget :
    runBudget (some 0) = none ∧
    (∀ inp : RunInput, runTop inp (some 0) = runTop inp none) ∧
    (∀ (inp : RunInput) (r : RuntimeFeedback),
      runTop inp (some 0) = RunOutcome.ok r → r.timeout = false) := by
  refine ⟨rfl, fun inp => rfl, ?_⟩
  intro inp r hrun
  have hrun2 : runDap inp none = RunOutcome.ok r := hrun
  obtain ⟨nspecs, s, fstop, hn, hl, _, htmo, _, _⟩ := runDap_ok_cases hrun2
  have h1 := (applyExitEvents_fields s fstop).2.2
  have hout : outState (runLoop none (registerSpecs nspecs inp.regOracle).1
      (inp.conts.length + 1)
      (launchResult inp none (initialState (registerSpecs nspecs inp.regOracle).2)).1
      (launchResult inp none (initialState (registerSpecs nspecs inp.regOracle).2)).2
      inp.conts) = s := by
    rw [hl]
    rfl
  have h2 := runLoop_timeout_none (registerSpecs nspecs inp.regOracle).1
    (inp.conts.length + 1)
    (launchResult inp none (initialState (registerSpecs nspecs inp.regOracle).2)).1
    (launchResult inp none (initialState (registerSpecs nspecs inp.regOracle).2)).2
    inp.conts
  rw [hout] at h2
  have h3 : (launchResult inp none
      (initialState (registerSpecs nspecs inp.regOracle).2)).1.timeout = false := rfl
  rw [htmo, h1, h2, h3]

/-- C10 witness: the trivial session run with `timeout_sec = 0` completes
with `timeout = false` — identical to passing no timeout. -/
theorem zero_timeout_sec_means_no_budget_witness :
    runTop wInp0 (some 0) = RunOutcome.ok wR0 ∧ wR0.timeout = false :=
  ⟨by decide, zero_timeout_sec_means_no_budget.2.2 wInp0 wR0 (by decide)⟩

/-! ## C7 -/

/-- C7: the source's per-spec location resolution coincides with the
specification's first-match-wins rule list — (1) existing absolute path,
(2) repo root join, resolved, (3) first source-map entry with matching
basename — and when no rule matches, the spec's location is left
unchanged. -/
theorem location_resolution_first_match_wins (fs : FileSystem)
    (repoDir : Option String) (sourceMap : List String)
    (fileStr linePart original : String) :
    resolveLocation fs repoDir sourceMap fileStr linePart original =
      specResolveLocation fs repoDir sourceMap fileStr linePart original ∧
    (specRuleAbsolute fs fileStr linePart = none →
     specRuleRepo fs repoDir fileStr linePart = none →
     specRuleMap sourceMap fileStr linePart = none →
     resolveLocation fs repoDir sourceMap fileStr linePart original = original) := by
  constructor
  · unfold resolveLocation specResolveLocation specRuleAbsolute specRuleRepo
      specRuleMap resolveViaSourceMap
    by_cases h1 : (isAbsolute fileStr && fs.pathExists fileStr) = true
    · rw [if_pos h1, if_pos h1]
    · rw [if_neg h1, if_neg h1]
      cases repoDir with
      | none =>
        dsimp only
        cases hm : sourceMap.filter (fun p => basename p == basename fileStr) with
        | nil => rfl
        | cons p ps => rfl
      | some repo =>
        dsimp only
        by_cases h2 : fs.pathExists (fs.resolve (joinPath repo fileStr)) = true
        · rw [if_pos h2, if_pos h2]
        · rw [if_neg h2, if_neg h2]
          dsimp only
          cases hm : sourceMap.filter (fun p => basename p == basename fileStr) with
          | nil => rfl
          | cons p ps => rfl
  · intro h1 h2 h3
    unfold specRuleAbsolute at h1
    unfold specRuleRepo at h2
    unfold specRuleMap at h3
    unfold resolveLocation resolveViaSourceMap
    by_cases c1 : (isAbsolute fileStr && fs.pathExists fileStr) = true
    · rw [if_pos c1] at h1
      exact absurd h1 (by simp)
    · rw [if_neg c1]
      cases repoDir with
      | none =>
        dsimp only
        cases hm : sourceMap.filter (fun p => basename p == basename fileStr) with
        | nil => rfl
        | cons p ps =>
          rw [hm] at h3
          exact absurd h3 (by simp)
      | some repo =>
        dsimp only at h2 ⊢
        by_cases c2 : fs.pathExists (fs.resolve (joinPath repo fileStr)) = true
        · rw [if_pos c2] at h2
          exact absurd h2 (by simp)
        · rw [if_neg c2]
          cases hm : sourceMap.filter (fun p => basename p == basename fileStr) with
          | nil => rfl
          | cons p ps =>
            rw [hm] at h3
            exact absurd h3 (by simp)

/-- C7 witness: on a filesystem where nothing exists and an empty source
map, the source resolution agrees with the spec rules and a relative
location stays unchanged. -/
theorem location_resolution_first_match_wins_witness :
    resolveLocation wFsNo none [] "a.c" "3" "a.c:3" =
      specResolveLocation wFsNo none [] "a.c" "3" "a.c:3" ∧
    resolveLocation wFsNo none [] "a.c" "3" "a.c:3" = "a.c:3" :=
  ⟨(location_resolution_first_match_wins wFsNo none [] "a.c" "3" "a.c:3").1,
   (location_resolution_first_match_wins wFsNo none [] "a.c" "3" "a.c:3").2
     (by decide) (by decide) (by decide)⟩

/-! ## C8 -/

/-- C8: the backtrace formatter emits exactly one line per frame, of the
form `#i: <name> at <source-name>:<line>`, the innermost frame (index 0)
prefixed by `*` and the others by two spaces, frames without a source
rendered as just `<name>` — i.e. the source function equals the
specification-worded formatter — and the empty frame sequence yields the
empty string. -/
theorem backtrace_formatter_matches_spec (frames : List StackFrame) :
    compactBacktrace frames = specBacktrace frames ∧
    compactBacktrace [] = "" := by
  constructor
  · unfold compactBacktrace specBacktrace
    apply congrArg (String.intercalate "\n")
    apply List.map_congr_left
    intro p hp
    unfold specBacktraceLine formatSingleFrame
    by_cases h : p.1 = 0
    · rw [if_pos h, if_pos h]
      cases p.2.source with
      | none => simp
      | some src => simp
    · rw [if_neg h, if_neg h]
      cases p.2.source with
      | none => simp
      | some src => simp
  · rfl

end Haocheng
